import Mathlib

/-!
# Emotional expense tracker (`src/script.js`)

A shallow embedding of the storage helpers, the filter, the table ordering, the
statistics, the insight rules, the CSV export and the JSON import of `script.js`,
followed by theorems about them.

Conventions of the embedding

* Numbers are IEEE-754 doubles (`JSNumber`): `NaN`, the two infinities, or a finite
  value counted in units of `2^-1074`, of which every finite double is a whole
  multiple. Sums and quotients are the exact result rounded to the nearest double,
  ties to even (`roundUnits`). A record holds its amount as the number written in the
  stored JSON (a rational); `+x.amount` is the nearest double (`toDouble`). Positive
  and negative zero are not told apart: no sum or comparison of the script depends on
  the sign of a zero.
* The text fields a record may lack (`category`, `description`, `payment`, `mood`)
  are `Option String`; `none` is a missing property.
* Browser built-ins whose tables are not part of the repository (date parsing, the
  local time zone, Unicode lower-casing, number printing) are fields of `Host`.
* A plain object used as a dictionary (`{}`) is a `JSObject`: its own properties in
  creation order, with the members inherited from `Object.prototype` visible to
  reads, and with `Object.entries` listing array-index keys first in ascending
  numeric order and the other keys in creation order.
* `Array.prototype.sort` is a stable sort; `arraySort` is the stable insertion sort,
  which is the result of every conforming engine whenever the comparator is a
  consistent ordering.
-/

namespace ExpenseTracker

/-! ## Records and host -/

deriving instance DecidableEq for Except

/-- One expense record, with the fields the submit handler writes (lines 203-211).
`amount` is the number as written in the stored JSON (a number, or a numeric text that
unary plus converts); the value the script computes with is the double nearest to it
(`toDouble`). -/
structure Expense where
  id : String
  amount : ℚ
  date : String
  category : Option String
  description : Option String
  payment : Option String
  mood : Option String
deriving DecidableEq

/-- Built-ins of the browser that the script calls.
`dateParse s` is the time value of `new Date(s)` in milliseconds since the epoch, or
`none` for an Invalid Date; `localTZA t` is the offset of local time at `t`;
`isoYearMonth t` is `toISOString().slice(0, 7)` of a valid time value;
`toLowerCase` is `String.prototype.toLowerCase`; `numberToString` is `String(n)`. -/
structure Host where
  dateParse : String → Option Int
  localTZA : Int → Int
  isoYearMonth : Int → String
  toLowerCase : String → String
  numberToString : ℚ → String

/-! ## Numbers -/

/-- A JS number: `NaN`, an infinity, or a finite double given as a whole number of
units of `2^-1074`. -/
inductive JSNumber
  | nan
  | inf (negative : Bool)
  | fin (units : Int)
deriving DecidableEq

/-- The integer nearest to `x ≥ 0`, the even one of two equally near. -/
def roundHalfEven (x : ℚ) : Nat :=
  let f := ⌊x⌋.toNat
  let r := x - (f : ℚ)
  if r < 1 / 2 then f
  else if 1 / 2 < r then f + 1
  else if f % 2 = 0 then f else f + 1

/-- The number of binary digits of `n`, for `n` below `2^fuel`. -/
def bitLength : Nat → Nat → Nat
  | 0, _ => 0
  | fuel + 1, n => if n = 0 then 0 else bitLength fuel (n / 2) + 1

/-- The double nearest to the magnitude `a ≥ 0`, given in units of `2^-1074`.
Below `2^53` units every whole number of units is a double. From there on a double
keeps 53 significant bits: the spacing is `2^shift` units, where `shift` is the bit
length of the magnitude less 53. A result of `2^2098` units (the value `2^1024`) or
more is `Infinity`. -/
def roundMag (a : ℚ) : JSNumber :=
  if a < ((2 ^ 53 : Nat) : ℚ) then .fin (roundHalfEven a)
  else if ((2 ^ 2098 : Nat) : ℚ) ≤ a then .inf false
  else
    let shift := bitLength 2098 ⌊a⌋.toNat - 53
    let m := roundHalfEven (a / ((2 ^ shift : Nat) : ℚ))
    if m * 2 ^ shift < 2 ^ 2098 then .fin ((m * 2 ^ shift : Nat) : Int) else .inf false

/-- Unary minus. -/
def JSNumber.neg : JSNumber → JSNumber
  | .nan => .nan
  | .inf b => .inf (!b)
  | .fin n => .fin (-n)

/-- The double nearest to the exact value `x`, given in units of `2^-1074`. -/
def roundUnits (x : ℚ) : JSNumber :=
  if x < 0 then (roundMag (-x)).neg else roundMag x

/-- The double a written number denotes (`JSON.parse`, unary `+` of a numeric text). -/
def toDouble (q : ℚ) : JSNumber := roundUnits (q * ((2 ^ 1074 : Nat) : ℚ))

instance (n : Nat) : OfNat JSNumber n := ⟨toDouble n⟩

/-- The sum `a + b` of two numbers. -/
def JSNumber.add : JSNumber → JSNumber → JSNumber
  | .nan, _ => .nan
  | _, .nan => .nan
  | .inf a, .inf b => if a = b then .inf a else .nan
  | .inf a, .fin _ => .inf a
  | .fin _, .inf b => .inf b
  | .fin a, .fin b => roundUnits ((a + b : Int) : ℚ)

/-- The difference `a - b`. -/
def JSNumber.sub (a b : JSNumber) : JSNumber := a.add b.neg

/-- The quotient `a / n` for a positive count `n`. -/
def JSNumber.divCount : JSNumber → Nat → JSNumber
  | .nan, _ => .nan
  | .inf b, _ => .inf b
  | .fin a, n => roundUnits ((a : ℚ) / (n : ℚ))

/-- The comparison `a < b`; false when either side is `NaN`. -/
def JSNumber.lt : JSNumber → JSNumber → Bool
  | .fin a, .fin b => decide (a < b)
  | .inf true, .fin _ => true
  | .inf true, .inf false => true
  | .fin _, .inf false => true
  | _, _ => false

/-- The comparison `a <= b`; false when either side is `NaN`. -/
def JSNumber.le : JSNumber → JSNumber → Bool
  | .fin a, .fin b => decide (a ≤ b)
  | .inf true, .fin _ => true
  | .inf true, .inf _ => true
  | .fin _, .inf false => true
  | .inf false, .inf false => true
  | _, _ => false

/-- Truthiness of a number: `0` and `NaN` are falsy. -/
def JSNumber.truthy : JSNumber → Bool
  | .nan => false
  | .inf _ => true
  | .fin n => decide (n ≠ 0)

/-- Whether a number is neither `NaN` nor an infinity. -/
def JSNumber.isFinite : JSNumber → Bool
  | .fin _ => true
  | _ => false

/-- Whether a comparator result makes `sort` keep the order of its two arguments:
the result is `<= 0`, or it is `NaN`, which `sort` reads as `0`. -/
def JSNumber.keepsOrder : JSNumber → Bool
  | .nan => true
  | .inf b => b
  | .fin n => decide (n ≤ 0)

/-- The sum of a list of written amounts as a left-to-right reduction in double
arithmetic, starting from `0`. -/
def floatSum (amounts : List ℚ) : JSNumber :=
  amounts.foldl (fun s a => s.add (toDouble a)) 0

/-- The two property names `groupSum` is called with. -/
inductive GroupKey
  | mood
  | category
deriving DecidableEq

/-- Property read `x[key]`. -/
def Expense.field (x : Expense) : GroupKey → Option String
  | .mood => x.mood
  | .category => x.category

/-- `v || d` for an optional string: a missing or empty string is falsy. -/
def strOr (v : Option String) (d : String) : String :=
  match v with
  | some s => if s = "" then d else s
  | none => d

/-! ## Plain objects used as dictionaries -/

/-- Values met when reading a property of an accumulator object:
`undefined`, a number, a non-empty string (`text`, the result of concatenating a
function source with a number), or a member inherited from `Object.prototype`. -/
inductive Val
  | undefined
  | num (v : JSNumber)
  | text
  | inherited
deriving DecidableEq

/-- Own properties of an object literal `{}`, in creation order. -/
structure JSObject where
  props : List (String × Val)
deriving DecidableEq

/-- Property names every plain object inherits from `Object.prototype`. -/
def objectPrototypeKeys : List String :=
  ["constructor", "__defineGetter__", "__defineSetter__", "hasOwnProperty",
   "__lookupGetter__", "__lookupSetter__", "isPrototypeOf", "propertyIsEnumerable",
   "toString", "valueOf", "__proto__", "toLocaleString"]

/-- The object literal `{}`. -/
def JSObject.empty : JSObject := ⟨[]⟩

/-- Own-property lookup. -/
def lookupOwn (k : String) : List (String × Val) → Option Val
  | [] => none
  | p :: ps => if p.1 = k then some p.2 else lookupOwn k ps

/-- Property read `o[k]`: an own property, else the inherited member, else `undefined`. -/
def JSObject.get (o : JSObject) (k : String) : Val :=
  match lookupOwn k o.props with
  | some v => v
  | none => if k ∈ objectPrototypeKeys then .inherited else .undefined

/-- Replace the value of the own property `k`, keeping its position. -/
def replaceOwn (k : String) (v : Val) : List (String × Val) → List (String × Val)
  | [] => []
  | p :: ps => if p.1 = k then (k, v) :: ps else p :: replaceOwn k v ps

/-- Assignment `o[k] = v` of a number or string.
An existing own property is overwritten in place. Otherwise the key `__proto__` reaches
the inherited setter, which ignores a value that is neither an object nor `null`; every
other key creates a new own property at the end. -/
def JSObject.set (o : JSObject) (k : String) (v : Val) : JSObject :=
  match lookupOwn k o.props with
  | some _ => ⟨replaceOwn k v o.props⟩
  | none => if k = "__proto__" then o else ⟨o.props ++ [(k, v)]⟩

/-- The expression `(old || 0) + +x.amount` for the written amount `a`:
`undefined`, `0` and `NaN` are falsy, so the sum starts from `0`; any other number is
added to, in double arithmetic; a string or an inherited function is truthy and `+`
concatenates, giving a string. -/
def addTo (old : Val) (a : ℚ) : Val :=
  match old with
  | .undefined => .num (JSNumber.add 0 (toDouble a))
  | .num v => if v.truthy then .num (v.add (toDouble a)) else .num (JSNumber.add 0 (toDouble a))
  | .text => .text
  | .inherited => .text

/-- The statement `acc[k] = (acc[k] || 0) + +x.amount` (lines 128 and 193). -/
def accumulate (acc : JSObject) (k : String) (a : ℚ) : JSObject :=
  acc.set k (addTo (acc.get k) a)

/-- Numeric value of a decimal digit string. -/
def digitsValue (cs : List Char) : Nat :=
  cs.foldl (fun n c => 10 * n + (c.toNat - 48)) 0

/-- The array index a property key denotes, if it is the canonical decimal form of an
integer below `2^32 - 1`. -/
def arrayIndex? (k : String) : Option Nat :=
  let cs := k.data
  if cs.all Char.isDigit && !cs.isEmpty && (cs.head? != some '0' || cs.length == 1)
      && decide (digitsValue cs < 2 ^ 32 - 1) then
    some (digitsValue cs)
  else none

/-- One step of the stable insertion sort: `a` goes before the first `b` with
`le a b`. -/
def insertSorted {α : Type} (le : α → α → Bool) (a : α) : List α → List α
  | [] => [a]
  | b :: l => if le a b then a :: b :: l else b :: insertSorted le a l

/-- `Array.prototype.sort(cmp)` as a stable sort; `le a b` stands for
`cmp(a, b) <= 0` (a comparator result of `NaN` counts as `0`). -/
def arraySort {α : Type} (le : α → α → Bool) : List α → List α
  | [] => []
  | a :: l => insertSorted le a (arraySort le l)

/-- Whether a property key is an array index. -/
def isIndexKey (k : String) : Bool := (arrayIndex? k).isSome

/-- Numeric value of an array-index key (`0` for any other key). -/
def keyIndex (k : String) : Nat := (arrayIndex? k).getD 0

/-- The order in which the own properties of an object are listed, given in creation
order: array-index keys in ascending numeric order, then the other keys in creation
order. -/
def propertyOrder {β : Type} (l : List (String × β)) : List (String × β) :=
  arraySort (fun a b => decide (keyIndex a.1 ≤ keyIndex b.1)) (l.filter (fun p => isIndexKey p.1))
    ++ l.filter (fun p => !isIndexKey p.1)

/-- `Object.entries(o)`. -/
def JSObject.entries (o : JSObject) : List (String × Val) := propertyOrder o.props

/-- `ToNumber` of an accumulator value: a number is itself; `undefined`, a function
and the strings `groupSum` can store (a function source followed by digits) are `NaN`. -/
def Val.toNumber : Val → JSNumber
  | .num v => v
  | _ => .nan

/-- The comparator `(a, b) => b[1] - a[1]` read as `cmp(a, b) <= 0`. -/
def byValueDesc (a b : String × Val) : Bool :=
  (b.2.toNumber.sub a.2.toNumber).keepsOrder

/-- The expression `x[key] || "Uncategorized"`. -/
def groupKeyOf (key : GroupKey) (x : Expense) : String :=
  strOr (x.field key) "Uncategorized"

/-- `groupSum(items, key)` (lines 190-196). -/
def groupSum (items : List Expense) (key : GroupKey) : JSObject :=
  items.foldl (fun acc x => accumulate acc (groupKeyOf key x) x.amount) JSObject.empty

/-- `items.reduce((s, x) => s + +x.amount, 0)` (lines 99 and 119). -/
def sumAmounts (items : List Expense) : JSNumber :=
  items.foldl (fun s x => s.add (toDouble x.amount)) 0

/-- `Object.entries(byMood).sort((a, b) => b[1] - a[1])` (lines 104 and 115). -/
def sortedMoodEntries (items : List Expense) : List (String × Val) :=
  arraySort byValueDesc (groupSum items .mood).entries

/-! ## Filtering (lines 51-67) -/

/-- The three filter inputs: `search.value`, `filterMood.value`, `filterMonth.value`. -/
structure Criteria where
  search : String
  mood : String
  month : String
deriving DecidableEq

/-- `s.includes(q)` on character lists. -/
def includesChars : List Char → List Char → Bool
  | [], q => q.isEmpty
  | c :: s, q => q.isPrefixOf (c :: s) || includesChars s q

/-- `s.includes(q)`. -/
def includes (s q : String) : Bool := includesChars s.data q.data

/-- The callback of `data.filter` in `applyFilters`. All three constants are computed
before the conjunction, so `toISOString` runs whenever a month is selected, and throws
a `RangeError` on an Invalid Date. -/
def matchesFilters (h : Host) (c : Criteria) (x : Expense) : Except String Bool :=
  let q := h.toLowerCase c.search
  let matchesText :=
    q = "" || includes (h.toLowerCase (strOr x.description "")) q
      || includes (h.toLowerCase (strOr x.category "")) q
  let matchesMood := c.mood = "" || x.mood = some c.mood
  if c.month = "" then
    .ok (matchesText && matchesMood && true)
  else
    match h.dateParse x.date with
    | none => .error "RangeError: Invalid time value"
    | some t => .ok (matchesText && matchesMood && decide (h.isoYearMonth t = c.month))

/-- `applyFilters(data)`: the records for which the callback is true, in order; the
first exception thrown by the callback ends the call. -/
def applyFilters (h : Host) (c : Criteria) : List Expense → Except String (List Expense)
  | [] => .ok []
  | x :: xs =>
    match matchesFilters h c x with
    | .error e => .error e
    | .ok keep =>
      match applyFilters h c xs with
      | .error e => .error e
      | .ok rest => .ok (if keep then x :: rest else rest)

/-! ## Table order (lines 69-73) -/

/-- The comparator `(a, b) => new Date(b.date) - new Date(a.date)` read as
`cmp(a, b) <= 0`; the difference is `NaN` when either date is invalid. -/
def byDateDesc (h : Host) (a b : Expense) : Bool :=
  match h.dateParse b.date, h.dateParse a.date with
  | some tb, some ta => decide (tb - ta ≤ 0)
  | _, _ => true

/-- The order in which `renderTable` appends the rows: `items.sort(...)`. -/
def renderTable (h : Host) (items : List Expense) : List Expense :=
  arraySort (byDateDesc h) items

/-! ## Statistics (lines 98-106) -/

/-- What `renderStats` writes: the total, the count and the top mood entry. -/
structure Stats where
  total : JSNumber
  count : Nat
  top : Option (String × JSNumber)
deriving DecidableEq

/-- `renderStats(items)`. The top entry is the first element of the sorted entries;
`top[1].toFixed(0)` throws a `TypeError` when the value is a string. -/
def renderStats (items : List Expense) : Except String Stats :=
  match (sortedMoodEntries items).head? with
  | none => .ok ⟨sumAmounts items, items.length, none⟩
  | some (k, .num v) => .ok ⟨sumAmounts items, items.length, some (k, v)⟩
  | some _ => .error "TypeError: top[1].toFixed is not a function"

/-! ## Insights (lines 108-141) -/

/-- One element of the `parts` array of `renderInsights`, before it is formatted:
`topMood m` is "You spend the most when you feel m.", `stressedHigher a` is
"Average purchase size is higher when Stressed (a).", `peakDay d` is
"Peak spend day: d.". -/
inductive Insight
  | topMood (mood : String)
  | stressedHigher (stressedAvg : JSNumber)
  | peakDay (dowName : String)
deriving DecidableEq

/-- What `renderInsights` puts in the insight box: a plain text or the joined parts. -/
inductive InsightBox
  | textContent (s : String)
  | innerHTML (parts : List Insight)
deriving DecidableEq

/-- The helper `avg` (line 119): the sum divided by `arr.length || 1`. -/
def avg (arr : List Expense) : JSNumber :=
  (sumAmounts arr).divCount (if arr.length = 0 then 1 else arr.length)

/-- The records with `x.mood === m`. -/
def withMood (m : String) (items : List Expense) : List Expense :=
  items.filter (fun x => decide (x.mood = some m))

/-- `v || 0` for a number. -/
def numOrZero (v : JSNumber) : JSNumber := if v.truthy then v else 0

/-- Milliseconds per day. -/
def msPerDay : Int := 86400000

/-- `new Date(s).getDay()`: the weekday of the local time, `0` for Sunday; `none` is
`NaN`. -/
def getDay (h : Host) (s : String) : Option Nat :=
  (h.dateParse s).map (fun t => (((t + h.localTZA t) / msPerDay + 4) % 7).toNat)

/-- The property key a `getDay()` result is converted to. -/
def dowKey : Option Nat → String
  | none => "NaN"
  | some d => Nat.repr d

/-- The object `byDow` after the `forEach` (lines 125-129). -/
def byDow (h : Host) (items : List Expense) : JSObject :=
  items.foldl (fun acc x => accumulate acc (dowKey (getDay h x.date)) x.amount)
    JSObject.empty

/-- `Object.entries(byDow).sort((a, b) => b[1] - a[1])[0]?.[0]` (line 130). -/
def maxDow (h : Host) (items : List Expense) : Option String :=
  ((arraySort byValueDesc (byDow h items).entries).head?).map Prod.fst

/-- `+maxDow || 0` for the keys `byDow` can hold: `undefined` and `"NaN"` convert to
`NaN`, which is falsy. -/
def dowIndex (k : Option String) : Nat :=
  match k with
  | some key => keyIndex key
  | none => 0

/-- The array of weekday names (line 131). -/
def dowNames : List String := ["Sun", "Mon", "Tue", "Wed", "Thu", "Fri", "Sat"]

/-- The weekday index `renderInsights` reports. -/
def peakDowIndex (h : Host) (items : List Expense) : Nat := dowIndex (maxDow h items)

/-- `sorted[0]?.[0]` (line 116). -/
def topMood (items : List Expense) : Option String :=
  ((sortedMoodEntries items).head?).map Prod.fst

/-- The test of line 136; `a > b` is `b < a`. -/
def stressedTest (items : List Expense) : Bool :=
  (numOrZero (avg (withMood "Calm" items))).lt (avg (withMood "Stressed" items))
    && (numOrZero (avg (withMood "Happy" items))).lt (avg (withMood "Stressed" items))

/-- `renderInsights(items)`. -/
def renderInsights (h : Host) (items : List Expense) : InsightBox :=
  if items.length < 3 then
    .textContent "Add a few expenses to unlock insights."
  else
    let parts₁ : List Insight :=
      match topMood items with
      | some m => if m = "" then [] else [.topMood m]
      | none => []
    let parts₂ : List Insight :=
      if stressedTest items then parts₁ ++ [.stressedHigher (avg (withMood "Stressed" items))]
      else parts₁
    .innerHTML (parts₂ ++ [.peakDay (dowNames.getD (peakDowIndex h items) "undefined")])

/-! ## Store, delete and import (lines 4-10, 88-95, 247-262) -/

/-- The storage slot: `none` when the key is absent, else the stored array. -/
abbrev Store (α : Type) := Option (List α)

/-- `getData()`. -/
def getData {α : Type} (s : Store α) : List α :=
  match s with
  | some arr => arr
  | none => []

/-- `setData(arr)`. -/
def setData {α : Type} (arr : List α) : Store α := some arr

/-- The click handler of a delete button carrying `data-id = id`. -/
def deleteHandler (id : String) (s : Store Expense) : Store Expense :=
  setData ((getData s).filter (fun x => decide (x.id ≠ id)))

/-- A parsed JSON value. -/
inductive Json
  | null
  | bool (b : Bool)
  | num (q : ℚ)
  | str (s : String)
  | arr (xs : List Json)
  | obj (kvs : List (String × Json))

/-- Effects of the import handler: the storage slot afterwards, the alert shown (if
any) and whether `importFile.value` was cleared. -/
structure ImportOutcome where
  store : Store Json
  alert : Option String
  cleared : Bool

/-- The change handler of the file input. `jsonParse` is `JSON.parse` (an error is the
message of the exception), `render` is the outcome of `render()` on the imported array,
`file` is the text of `importFile.files[0]` if there is one. -/
def importHandler (jsonParse : String → Except String Json)
    (render : List Json → Except String Unit) (file : Option String)
    (store : Store Json) : ImportOutcome :=
  match file with
  | none => ⟨store, none, false⟩
  | some text =>
    match jsonParse text with
    | .error msg => ⟨store, some ("Import failed: " ++ msg), true⟩
    | .ok (.arr parsed) =>
      match render parsed with
      | .error msg => ⟨setData parsed, some ("Import failed: " ++ msg), true⟩
      | .ok _ => ⟨setData parsed, some "Import successful!", true⟩
    | .ok _ => ⟨store, some ("Import failed: " ++ "Invalid JSON format"), true⟩

/-! ## CSV export (lines 236-244) -/

/-- Hexadecimal digit, lower case. -/
def hexDigit (n : Nat) : Char :=
  if n < 10 then Char.ofNat (48 + n) else Char.ofNat (87 + n)

/-- The escape `JSON.stringify` writes for one character of a string. -/
def jsonEscape (c : Char) : List Char :=
  if c = '"' then ['\\', '"']
  else if c = '\\' then ['\\', '\\']
  else if c.toNat = 8 then ['\\', 'b']
  else if c.toNat = 12 then ['\\', 'f']
  else if c.toNat = 10 then ['\\', 'n']
  else if c.toNat = 13 then ['\\', 'r']
  else if c.toNat = 9 then ['\\', 't']
  else if c.toNat < 32 then ['\\', 'u', '0', '0', hexDigit (c.toNat / 16), hexDigit (c.toNat % 16)]
  else [c]

/-- `JSON.stringify(s)` for a string `s`. -/
def jsonStringify (s : String) : String :=
  String.mk ('"' :: (s.data.flatMap jsonEscape ++ ['"']))

/-- The column names of the export. -/
def csvHeader : List String :=
  ["id", "date", "amount", "category", "description", "payment", "mood"]

/-- `String(r[h] ?? "")` for each column, in header order. -/
def csvFields (h : Host) (r : Expense) : List String :=
  [r.id, r.date, h.numberToString r.amount, r.category.getD "", r.description.getD "",
   r.payment.getD "", r.mood.getD ""]

/-- One exported row. -/
def csvRow (h : Host) (r : Expense) : String :=
  ",".intercalate ((csvFields h r).map jsonStringify)

/-- The exported file text. -/
def exportCsv (h : Host) (rows : List Expense) : String :=
  "\n".intercalate (",".intercalate csvHeader :: rows.map (csvRow h))

/-- One state of the CSV reader: at the start of a field, inside an unquoted field,
inside a quoted field, or just after a quote met inside a quoted field. -/
inductive CsvState
  | fieldStart
  | unquoted
  | quoted
  | quoteSeen
deriving DecidableEq

/-- Modelled from the spec: the re-parsing of an exported row "as CSV with quoted
fields". The repository has no CSV reader; this one follows the usual quoting rule of
CSV (RFC 4180): a field enclosed in double quotes may hold commas, a double quote
inside it is written twice, and a closing quote is followed by a comma or the end of
the row. `cur` is the current field reversed, `done` the finished fields reversed. -/
def csvRead : CsvState → List Char → List String → List Char → Option (List String)
  | .quoted, _, _, [] => none
  | _, cur, done, [] => some (String.mk cur.reverse :: done).reverse
  | .fieldStart, cur, done, c :: cs =>
    if c = '"' then csvRead .quoted cur done cs
    else if c = ',' then csvRead .fieldStart [] (String.mk cur.reverse :: done) cs
    else csvRead .unquoted (c :: cur) done cs
  | .unquoted, cur, done, c :: cs =>
    if c = '"' then none
    else if c = ',' then csvRead .fieldStart [] (String.mk cur.reverse :: done) cs
    else csvRead .unquoted (c :: cur) done cs
  | .quoted, cur, done, c :: cs =>
    if c = '"' then csvRead .quoteSeen cur done cs
    else csvRead .quoted (c :: cur) done cs
  | .quoteSeen, cur, done, c :: cs =>
    if c = '"' then csvRead .quoted (c :: cur) done cs
    else if c = ',' then csvRead .fieldStart [] (String.mk cur.reverse :: done) cs
    else none

/-- Modelled from the spec: the fields of one CSV row, `none` when the row is not
well-formed CSV. -/
def parseCsvRow (row : String) : Option (List String) :=
  csvRead .fieldStart [] [] row.data

/-- Modelled from the spec: the description column (index 4) of a re-parsed row. -/
def reparsedDescription (row : String) : Option String :=
  (parseCsvRow row).bind (fun fields => fields.get? 4)

/-! ## A concrete host

Universal Time, ISO calendar dates (`YYYY-MM-DD`, the value of a date input), ASCII
lower-casing. It serves to evaluate the definitions on concrete records. -/

/-- Days from 1970-01-01 to the civil date `y-m-d` (proleptic Gregorian calendar). -/
def daysFromCivil (y m d : Int) : Int :=
  let y1 := if m ≤ 2 then y - 1 else y
  let era := y1 / 400
  let yoe := y1 - era * 400
  let mp := if m > 2 then m - 3 else m + 9
  let doy := (153 * mp + 2) / 5 + d - 1
  let doe := yoe * 365 + yoe / 4 - yoe / 100 + doy
  era * 146097 + doe - 719468

/-- Year and month of the day number `z` (days since 1970-01-01). -/
def civilFromDays (z : Int) : Int × Int :=
  let z1 := z + 719468
  let era := z1 / 146097
  let doe := z1 - era * 146097
  let yoe := (doe - doe / 1460 + doe / 36524 - doe / 146096) / 365
  let doy := doe - (365 * yoe + yoe / 4 - yoe / 100)
  let mp := (5 * doy + 2) / 153
  let m := if mp < 10 then mp + 3 else mp - 9
  let y := yoe + era * 400
  (if m ≤ 2 then y + 1 else y, m)

/-- Number of days of month `m` in year `y`. -/
def daysInMonth (y m : Nat) : Nat :=
  if m = 2 then (if y % 4 = 0 ∧ (y % 100 ≠ 0 ∨ y % 400 = 0) then 29 else 28)
  else if m = 4 ∨ m = 6 ∨ m = 9 ∨ m = 11 then 30
  else 31

/-- Time value of a date-only ISO string, `none` for any other text. -/
def parseIsoDate (s : String) : Option Int :=
  match s.data with
  | [y1, y2, y3, y4, s1, m1, m2, s2, d1, d2] =>
    let y := digitsValue [y1, y2, y3, y4]
    let m := digitsValue [m1, m2]
    let d := digitsValue [d1, d2]
    if [y1, y2, y3, y4, m1, m2, d1, d2].all Char.isDigit && s1 == '-' && s2 == '-'
        && decide (1 ≤ m) && decide (m ≤ 12) && decide (1 ≤ d)
        && decide (d ≤ daysInMonth y m) then
      some (daysFromCivil y m d * msPerDay)
    else none
  | _ => none

/-- Decimal digits of `n`, padded with zeros to `width` characters. -/
def padDigits (width n : Nat) : String :=
  let ds := Nat.repr n
  String.mk (List.replicate (width - ds.length) '0') ++ ds

/-- The first seven characters of the ISO text of a time value: `YYYY-MM`, or a sign
and six year digits for a year outside `0..9999`. -/
def isoYearMonthUtc (t : Int) : String :=
  let ym := civilFromDays (t / msPerDay)
  if 0 ≤ ym.1 ∧ ym.1 ≤ 9999 then
    padDigits 4 ym.1.toNat ++ "-" ++ padDigits 2 ym.2.toNat
  else if ym.1 < 0 then "-" ++ padDigits 6 (-ym.1).toNat
  else "+" ++ padDigits 6 ym.1.toNat

/-- Text of an amount: the decimal digits of a whole number; a fraction is written as
numerator and denominator. -/
def amountText (q : ℚ) : String :=
  if q.den = 1 then
    (if q.num < 0 then "-" ++ Nat.repr q.num.natAbs else Nat.repr q.num.natAbs)
  else
    (if q.num < 0 then "-" else "") ++ Nat.repr q.num.natAbs ++ "/" ++ Nat.repr q.den

/-- A host in Universal Time. -/
def utcHost : Host where
  dateParse := parseIsoDate
  localTZA := fun _ => 0
  isoYearMonth := isoYearMonthUtc
  toLowerCase := fun s => String.mk (s.data.map Char.toLower)
  numberToString := amountText

/-- A record with the given amount, mood and date, as in the examples of the spec. -/
def mkExpense (id : String) (amount : ℚ) (mood : String) (date : String) : Expense :=
  ⟨id, amount, date, none, none, none, some mood⟩

/-- The parts written by `renderInsights`; none when the box shows a plain text. -/
def InsightBox.parts : InsightBox → List Insight
  | .textContent _ => []
  | .innerHTML ps => ps

/-- The three records of the example in the spec. -/
def stressedExample : List Expense :=
  [mkExpense "1" 100 "Stressed" "2024-01-01", mkExpense "2" 10 "Calm" "2024-01-02",
   mkExpense "3" 10 "Happy" "2024-01-03"]

/-- The average amount of a list of records as the spec words it: the sum over the
count, and `0` for no records; the sum and the quotient are those of double
arithmetic. -/
def meanAmount (l : List Expense) : JSNumber :=
  if l = [] then 0 else (floatSum (l.map (fun x => x.amount))).divCount l.length

/-! ## Reference definitions for the grouping

Written from the words of the spec, to compare the code with: the distinct keys in
order of first occurrence, each with the sum of the amounts recorded under it. -/

/-- The distinct elements of a list of keys, in order of first occurrence. -/
def firstKeys : List String → List String
  | [] => []
  | k :: ks => k :: (firstKeys ks).filter (fun j => decide (j ≠ k))

/-- The sum of the amounts paired with key `k`, in the order of the list. -/
def keySum (k : String) (kas : List (String × ℚ)) : JSNumber :=
  floatSum ((kas.filter (fun p => decide (p.1 = k))).map Prod.snd)

/-- Each distinct key, in order of first occurrence, with the sum of its amounts. -/
def totalsOf (kas : List (String × ℚ)) : List (String × JSNumber) :=
  (firstKeys (kas.map Prod.fst)).map (fun k => (k, keySum k kas))

/-- The grouping of the spec: each distinct key of the records in order of first
occurrence (a missing or empty key counted as "Uncategorized"), with its total. -/
def groupTotals (items : List Expense) (key : GroupKey) : List (String × JSNumber) :=
  totalsOf (items.map (fun x => (groupKeyOf key x, x.amount)))

/-- The first entry of a list among those with the greatest value. -/
def firstMax : List (String × JSNumber) → Option (String × JSNumber)
  | [] => none
  | e :: l =>
    match firstMax l with
    | none => some e
    | some m => if m.2.le e.2 then some e else some m

/-- The sum of the values of a list of entries, when every value is a number. -/
def entriesTotal : List (String × Val) → Option JSNumber
  | [] => some 0
  | p :: ps =>
    match p.2, entriesTotal ps with
    | .num v, some t => some (v.add t)
    | _, _ => none

/-- The sum of `Object.values(o)`, when every value is a number. -/
def valuesTotal (o : JSObject) : Option JSNumber := entriesTotal o.entries

/-- The pair of a key and a numeric value as an object entry. -/
def numEntry (p : String × JSNumber) : String × Val := (p.1, .num p.2)

/-- The weekday keyed amounts that `byDow` accumulates. -/
def dowPairs (h : Host) (items : List Expense) : List (String × ℚ) :=
  items.map (fun x => (dowKey (getDay h x.date), x.amount))

/-- The sum of the amounts of the records that fall on weekday `w`, in the order of
the list. -/
def daySum (h : Host) (items : List Expense) (w : Nat) : JSNumber :=
  floatSum ((items.filter (fun x => decide (getDay h x.date = some w))).map (fun x => x.amount))

/-- Adding `a` to the total of key `k` in a list of totals: in place when the key is
there, as a new last entry otherwise. -/
def bumpTotal (k : String) (a : ℚ) (ps : List (String × JSNumber)) :
    List (String × JSNumber) :=
  if k ∈ ps.map Prod.fst then
    ps.map (fun p => if p.1 = k then (p.1, p.2.add (toDouble a)) else p)
  else ps ++ [(k, JSNumber.add 0 (toDouble a))]

/-- The place of a number in the order of the numbers, `NaN` put with `-Infinity`. -/
def JSNumber.rank : JSNumber → WithBot (WithTop Int)
  | .nan => ⊥
  | .inf true => ⊥
  | .inf false => ((⊤ : WithTop Int) : WithBot (WithTop Int))
  | .fin n => ((n : WithTop Int) : WithBot (WithTop Int))

/-- Whether a number is `NaN`. -/
def JSNumber.isNaN : JSNumber → Bool
  | .nan => true
  | _ => false

/-- Whether a number is at least `0` (`NaN` is not). -/
def JSNumber.nonneg : JSNumber → Bool
  | .nan => false
  | .inf b => !b
  | .fin n => decide (0 ≤ n)

/-- The object after accumulating a list of keyed amounts into `o`. -/
def accumulateAll (o : JSObject) (kas : List (String × ℚ)) : JSObject :=
  kas.foldl (fun acc p => accumulate acc p.1 p.2) o

/-- Two records whose moods are the labels "2" and "1", with equal amounts. -/
def numericMoods : List Expense :=
  [mkExpense "a" 5 "2" "2024-01-01", mkExpense "b" 5 "1" "2024-01-02"]

/-- Three records of amount 0 dated Monday 2024-01-01. -/
def zeroMondays : List Expense :=
  [mkExpense "a" 0 "Calm" "2024-01-01", mkExpense "b" 0 "Calm" "2024-01-01",
   mkExpense "c" 0 "Happy" "2024-01-01"]

/-- Two records without a usable date and one record dated Monday 2024-01-01. -/
def undatedExample : List Expense :=
  [mkExpense "a" 100 "Calm" "", mkExpense "b" 100 "Calm" "",
   mkExpense "c" 5 "Happy" "2024-01-01"]

/-- Records on a Monday, a Wednesday and a Monday, the two weekdays with equal sums,
the Wednesday first. -/
def tiedDays : List Expense :=
  [mkExpense "a" 10 "Calm" "2024-01-03", mkExpense "b" 4 "Calm" "2024-01-01",
   mkExpense "c" 6 "Happy" "2024-01-08"]

/-- One record whose mood label is "__proto__". -/
def protoMood : List Expense := [mkExpense "a" 5 "__proto__" "2024-01-01"]

/-- Four records on two dates, out of order, two per date. -/
def tableExample : List Expense :=
  [mkExpense "a" 1 "Calm" "2024-01-01", mkExpense "b" 2 "Calm" "2024-01-03",
   mkExpense "c" 3 "Happy" "2024-01-01", mkExpense "d" 4 "Happy" "2024-01-03"]

/-- One record filed under the category "__proto__". -/
def protoCategory : List Expense :=
  [⟨"1", 5, "2024-01-01", some "__proto__", some "gift", some "Cash", some "Happy"⟩]

/-- One record filed under the category "constructor". -/
def constructorCategory : List Expense :=
  [⟨"1", 5, "2024-01-01", some "constructor", some "gift", some "Cash", some "Happy"⟩]

/-- Records with and without a category, none of them a member name of
`Object.prototype`. -/
def mixedCategories : List Expense :=
  [⟨"1", 5, "2024-01-01", some "Food", none, none, some "Happy"⟩,
   ⟨"2", 7, "2024-01-02", none, none, none, some "Calm"⟩,
   ⟨"3", 1, "2024-01-02", some "", none, none, none⟩,
   ⟨"4", 2, "2024-01-03", some "Food", none, none, some "Calm"⟩]

/-- A record whose description holds a comma and double quotes. -/
def quotedDescription : Expense :=
  ⟨"1", 12, "2024-01-01", some "Books", some "Book, \"Dune\"", some "Cash", some "Happy"⟩

/-- A record whose description holds a comma and a backslash. -/
def backslashDescription : Expense :=
  ⟨"2", 3, "2024-01-02", some "Office", some "C:\\docs, print", some "Card", some "Calm"⟩

/-- A record whose description holds a comma and no character that JSON escapes. -/
def commaDescription : Expense :=
  ⟨"3", 40, "2024-01-03", some "Food", some "Lunch, coffee", some "Cash", some "Happy"⟩

/-- Two Stressed and three Calm records whose averages differ only in the last
binary digit: in double arithmetic the Stressed average is 739.76 and the Calm average
739.7599999999999. -/
def closeAverages : List Expense :=
  [mkExpense "1" 894.02 "Stressed" "2024-01-01", mkExpense "2" 585.50 "Stressed" "2024-01-02",
   mkExpense "3" 719.94 "Calm" "2024-01-03", mkExpense "4" 327.97 "Calm" "2024-01-04",
   mkExpense "5" 1171.37 "Calm" "2024-01-05"]

/-- Two Calm and three Happy records whose totals differ only in the last binary
digit: in double arithmetic Calm adds up to 1421.09 and Happy to 1421.0900000000001.
The Calm records fall on a Monday, the Happy records on a Tuesday. -/
def closeTotals : List Expense :=
  [mkExpense "1" 973.15 "Calm" "2024-01-01", mkExpense "2" 447.94 "Calm" "2024-01-01",
   mkExpense "3" 514.55 "Happy" "2024-01-02", mkExpense "4" 655.12 "Happy" "2024-01-02",
   mkExpense "5" 251.42 "Happy" "2024-01-02"]

/-- Two Calm records on a Monday whose amounts are stored as the numeric texts
"1e999" and "-1e999", which unary plus reads as `Infinity` and `-Infinity`, and one
Happy record of amount 5 on a Tuesday. -/
def overflowAmounts : List Expense :=
  [mkExpense "1" (10 ^ 999) "Calm" "2024-01-01", mkExpense "2" (-(10 ^ 999)) "Calm" "2024-01-01",
   mkExpense "3" 5 "Happy" "2024-01-02"]

/-! ## Theorems -/

/-! ### Double arithmetic -/

theorem roundMag_cases (a : ℚ) :
    (∃ m : Nat, roundMag a = .fin (m : Int)) ∨ roundMag a = .inf false := by
  unfold roundMag
  split
  · exact Or.inl ⟨_, rfl⟩
  · split
    · exact Or.inr rfl
    · simp only []
      split
      · exact Or.inl ⟨_, rfl⟩
      · exact Or.inr rfl

theorem roundUnits_isNaN (x : ℚ) : (roundUnits x).isNaN = false := by
  unfold roundUnits
  split
  · rcases roundMag_cases (-x) with ⟨m, hm⟩ | hm <;> rw [hm] <;> rfl
  · rcases roundMag_cases x with ⟨m, hm⟩ | hm <;> rw [hm] <;> rfl

theorem roundUnits_nonneg (x : ℚ) (hx : 0 ≤ x) : (roundUnits x).nonneg = true := by
  unfold roundUnits
  rw [if_neg (not_lt.mpr hx)]
  rcases roundMag_cases x with ⟨m, hm⟩ | hm <;> rw [hm]
  · simp [JSNumber.nonneg]
  · rfl

theorem toDouble_nonneg (q : ℚ) (hq : 0 ≤ q) : (toDouble q).nonneg = true := by
  unfold toDouble
  exact roundUnits_nonneg _ (mul_nonneg hq (by positivity))

theorem toDouble_isNaN (q : ℚ) : (toDouble q).isNaN = false := roundUnits_isNaN _

theorem two_pow_bitLength_le (fuel n : Nat) (hn : n ≠ 0) : 2 ^ bitLength fuel n ≤ 2 * n := by
  induction fuel generalizing n with
  | zero =>
    simp only [bitLength, pow_zero]
    omega
  | succ fuel ih =>
    simp only [bitLength, if_neg hn, pow_succ]
    by_cases h2 : n / 2 = 0
    · rw [h2]
      have : bitLength fuel 0 = 0 := by cases fuel <;> simp [bitLength]
      rw [this]
      omega
    · have := ih (n / 2) h2
      omega

theorem floor_toNat_le_roundHalfEven (x : ℚ) : ⌊x⌋.toNat ≤ roundHalfEven x := by
  unfold roundHalfEven
  simp only []
  split
  · exact le_refl _
  · split
    · exact Nat.le_succ _
    · split
      · exact le_refl _
      · exact Nat.le_succ _

theorem roundHalfEven_pos (x : ℚ) (hx : 1 ≤ x) : 0 < roundHalfEven x := by
  have h1 : (1 : Int) ≤ ⌊x⌋ := Int.le_floor.mpr (by simpa using hx)
  have h2 : 1 ≤ ⌊x⌋.toNat := by omega
  exact lt_of_lt_of_le h2 (floor_toNat_le_roundHalfEven x)

theorem roundMag_pos (a : ℚ) (ha : 1 ≤ a) :
    (∃ m : Nat, 0 < m ∧ roundMag a = .fin (m : Int)) ∨ roundMag a = .inf false := by
  unfold roundMag
  split
  · exact Or.inl ⟨_, roundHalfEven_pos a ha, rfl⟩
  · next hbig =>
    split
    · exact Or.inr rfl
    · simp only []
      split
      · refine Or.inl ⟨_, ?_, rfl⟩
        have hfloor : (1 : Int) ≤ ⌊a⌋ := Int.le_floor.mpr (by simpa using ha)
        have hn : ⌊a⌋.toNat ≠ 0 := by omega
        have hle : ((⌊a⌋.toNat : Nat) : ℚ) ≤ a := by
          have h1 : ((⌊a⌋.toNat : Nat) : Int) = ⌊a⌋ := Int.toNat_of_nonneg (by omega)
          have h2 : ((⌊a⌋ : Int) : ℚ) ≤ a := Int.floor_le a
          calc ((⌊a⌋.toNat : Nat) : ℚ) = (((⌊a⌋.toNat : Nat) : Int) : ℚ) := by push_cast; rfl
            _ = ((⌊a⌋ : Int) : ℚ) := by rw [h1]
            _ ≤ a := h2
        have hpow : 2 ^ (bitLength 2098 ⌊a⌋.toNat - 53) ≤ ⌊a⌋.toNat := by
          have hb := two_pow_bitLength_le 2098 ⌊a⌋.toNat hn
          by_cases h53 : bitLength 2098 ⌊a⌋.toNat ≤ 53
          · rw [Nat.sub_eq_zero_of_le h53]
            simp only [pow_zero]
            omega
          · have hsplit : bitLength 2098 ⌊a⌋.toNat
                = (bitLength 2098 ⌊a⌋.toNat - 53) + 53 := by omega
            rw [hsplit, pow_add] at hb
            have h53pos : 2 ≤ 2 ^ 53 := by norm_num
            nlinarith [Nat.pow_pos (n := bitLength 2098 ⌊a⌋.toNat - 53) (by norm_num : 0 < 2)]
        have hq : (1 : ℚ) ≤ a / ((2 ^ (bitLength 2098 ⌊a⌋.toNat - 53) : Nat) : ℚ) := by
          rw [le_div_iff₀ (by positivity)]
          rw [one_mul]
          exact le_trans (by exact_mod_cast hpow) hle
        exact Nat.mul_pos (roundHalfEven_pos _ hq) (Nat.pow_pos (by norm_num))
      · exact Or.inr rfl

theorem keepsOrder_roundUnits_int (n : Int) :
    (roundUnits (n : ℚ)).keepsOrder = decide (n ≤ 0) := by
  unfold roundUnits
  by_cases hneg : (n : ℚ) < 0
  · have hn : n < 0 := by exact_mod_cast hneg
    rw [if_pos hneg]
    rcases roundMag_cases (-(n : ℚ)) with ⟨m, hm⟩ | hm <;> rw [hm]
    · simp only [JSNumber.neg, JSNumber.keepsOrder]
      have : n ≤ 0 := le_of_lt hn
      simp [this]
    · simp only [JSNumber.neg, JSNumber.keepsOrder]
      have : n ≤ 0 := le_of_lt hn
      simp [this]
  · rw [if_neg hneg]
    have hn : 0 ≤ n := by
      have : (0 : ℚ) ≤ (n : ℚ) := not_lt.mp hneg
      exact_mod_cast this
    by_cases h0 : n = 0
    · subst h0
      decide!
    · have hpos : 1 ≤ n := by omega
      have hq : (1 : ℚ) ≤ (n : ℚ) := by exact_mod_cast hpos
      have hnle : ¬ n ≤ 0 := by omega
      rcases roundMag_pos (n : ℚ) hq with ⟨m, hm0, hm⟩ | hm <;> rw [hm]
      · simp only [JSNumber.keepsOrder]
        have : ¬ ((m : Int) ≤ 0) := by omega
        simp [this, hnle]
      · simp [JSNumber.keepsOrder, hnle]

theorem keepsOrder_sub (y x : JSNumber) (hy : y.isNaN = false) (hx : x.isNaN = false) :
    (y.sub x).keepsOrder = y.le x := by
  cases y with
  | nan => cases hy
  | inf b =>
    cases x with
    | nan => cases hx
    | inf c => cases b <;> cases c <;> rfl
    | fin n => cases b <;> rfl
  | fin m =>
    cases x with
    | nan => cases hx
    | inf c => cases c <;> rfl
    | fin n =>
      simp only [JSNumber.sub, JSNumber.neg, JSNumber.add, JSNumber.le]
      rw [keepsOrder_roundUnits_int]
      congr 1
      exact propext (by omega)

theorem le_iff_rank (y x : JSNumber) (hy : y.isNaN = false) (hx : x.isNaN = false) :
    y.le x = true ↔ y.rank ≤ x.rank := by
  cases y with
  | nan => cases hy
  | inf b =>
    cases x with
    | nan => cases hx
    | inf c => cases b <;> cases c <;> simp [JSNumber.le, JSNumber.rank]
    | fin n =>
      cases b
      · simp only [JSNumber.le, JSNumber.rank, Bool.false_eq_true, false_iff, not_le]
        exact WithBot.coe_lt_coe.mpr (WithTop.coe_lt_top n)
      · simp [JSNumber.le, JSNumber.rank]
  | fin m =>
    cases x with
    | nan => cases hx
    | inf c =>
      cases c
      · simp only [JSNumber.le, JSNumber.rank, true_iff]
        exact WithBot.coe_le_coe.mpr le_top
      · simp only [JSNumber.le, JSNumber.rank, Bool.false_eq_true, false_iff, not_le]
        exact WithBot.bot_lt_coe _
    | fin n =>
      simp only [JSNumber.le, JSNumber.rank, decide_eq_true_eq]
      rw [WithBot.coe_le_coe, WithTop.coe_le_coe]

theorem lt_iff_rank (y x : JSNumber) (hy : y.isNaN = false) (hx : x.isNaN = false) :
    y.lt x = true ↔ y.rank < x.rank := by
  cases y with
  | nan => cases hy
  | inf b =>
    cases x with
    | nan => cases hx
    | inf c =>
      cases b <;> cases c <;> simp [JSNumber.lt, JSNumber.rank]
    | fin n =>
      cases b
      · simp only [JSNumber.lt, JSNumber.rank, Bool.false_eq_true, false_iff, not_lt]
        exact WithBot.coe_le_coe.mpr le_top
      · simp only [JSNumber.lt, JSNumber.rank, true_iff]
        exact WithBot.bot_lt_coe _
  | fin m =>
    cases x with
    | nan => cases hx
    | inf c =>
      cases c
      · simp only [JSNumber.lt, JSNumber.rank, true_iff]
        exact WithBot.coe_lt_coe.mpr (WithTop.coe_lt_top m)
      · simp [JSNumber.lt, JSNumber.rank]
    | fin n =>
      simp only [JSNumber.lt, JSNumber.rank, decide_eq_true_eq]
      rw [WithBot.coe_lt_coe, WithTop.coe_lt_coe]

theorem add_isNaN_of_finite (s d : JSNumber) (hs : s.isNaN = false)
    (hd : d.isFinite = true) : (s.add d).isNaN = false := by
  cases d with
  | nan => cases hd
  | inf b => cases hd
  | fin n =>
    cases s with
    | nan => cases hs
    | inf c => rfl
    | fin m => exact roundUnits_isNaN _

theorem jsAdd_nonneg (s d : JSNumber) (hs : s.nonneg = true) (hd : d.nonneg = true) :
    (s.add d).nonneg = true := by
  cases s with
  | nan => cases hs
  | inf b =>
    cases b
    · cases d with
      | nan => cases hd
      | inf c => cases c <;> first | rfl | cases hd
      | fin n => rfl
    · cases hs
  | fin m =>
    cases d with
    | nan => cases hd
    | inf c => cases c <;> first | rfl | cases hd
    | fin n =>
      simp only [JSNumber.nonneg, decide_eq_true_eq] at hs hd
      simp only [JSNumber.add]
      apply roundUnits_nonneg
      exact_mod_cast Int.add_nonneg hs hd

theorem divCount_nonneg (s : JSNumber) (n : Nat) (hs : s.nonneg = true) :
    (s.divCount n).nonneg = true := by
  cases s with
  | nan => cases hs
  | inf b => exact hs
  | fin m =>
    simp only [JSNumber.nonneg, decide_eq_true_eq] at hs
    simp only [JSNumber.divCount]
    apply roundUnits_nonneg
    exact div_nonneg (by exact_mod_cast hs) (Nat.cast_nonneg n)

theorem isNaN_of_nonneg (s : JSNumber) (hs : s.nonneg = true) : s.isNaN = false := by
  cases s with
  | nan => cases hs
  | inf b => rfl
  | fin m => rfl

/-! ### The stable sort -/

theorem insertSorted_perm {α : Type} (le : α → α → Bool) (a : α) (l : List α) :
    (insertSorted le a l).Perm (a :: l) := by
  induction l with
  | nil => exact List.Perm.refl _
  | cons b l ih =>
    unfold insertSorted
    split
    · exact List.Perm.refl _
    · exact ((List.Perm.cons b ih).trans (List.Perm.swap a b l))

theorem arraySort_perm {α : Type} (le : α → α → Bool) (l : List α) :
    (arraySort le l).Perm l := by
  induction l with
  | nil => exact List.Perm.refl _
  | cons a l ih =>
    unfold arraySort
    exact (insertSorted_perm le a _).trans (List.Perm.cons a ih)

theorem mem_arraySort {α : Type} (le : α → α → Bool) (l : List α) (x : α) :
    x ∈ arraySort le l ↔ x ∈ l :=
  (arraySort_perm le l).mem_iff

theorem insertSorted_congr {α : Type} (le₁ le₂ : α → α → Bool) (a : α) (l : List α)
    (hag : ∀ b ∈ l, le₁ a b = le₂ a b) : insertSorted le₁ a l = insertSorted le₂ a l := by
  induction l with
  | nil => rfl
  | cons b l ih =>
    unfold insertSorted
    rw [hag b (List.mem_cons_self b l), ih (fun c hc => hag c (List.mem_cons_of_mem b hc))]

theorem arraySort_congr {α : Type} (le₁ le₂ : α → α → Bool) (l : List α)
    (hag : ∀ a ∈ l, ∀ b ∈ l, le₁ a b = le₂ a b) : arraySort le₁ l = arraySort le₂ l := by
  induction l with
  | nil => rfl
  | cons a l ih =>
    unfold arraySort
    rw [ih (fun x hx y hy => hag x (List.mem_cons_of_mem a hx) y (List.mem_cons_of_mem a hy))]
    apply insertSorted_congr
    intro b hb
    exact hag a (List.mem_cons_self a l) b
      (List.mem_cons_of_mem a ((mem_arraySort le₂ l b).mp hb))

theorem insertSorted_map {α β : Type} (f : α → β) (le : α → α → Bool) (le₂ : β → β → Bool)
    (hf : ∀ a b, le₂ (f a) (f b) = le a b) (a : α) (l : List α) :
    insertSorted le₂ (f a) (l.map f) = (insertSorted le a l).map f := by
  induction l with
  | nil => rfl
  | cons b l ih =>
    simp only [List.map_cons, insertSorted, hf]
    split
    · rfl
    · rw [List.map_cons, ih]

theorem arraySort_map {α β : Type} (f : α → β) (le : α → α → Bool) (le₂ : β → β → Bool)
    (hf : ∀ a b, le₂ (f a) (f b) = le a b) (l : List α) :
    arraySort le₂ (l.map f) = (arraySort le l).map f := by
  induction l with
  | nil => rfl
  | cons a l ih =>
    simp only [List.map_cons, arraySort]
    rw [ih, insertSorted_map f le le₂ hf]

theorem insertSorted_pairwise {α : Type} (le : α → α → Bool)
    (htot : ∀ a b, le a b = true ∨ le b a = true)
    (htrans : ∀ a b c, le a b = true → le b c = true → le a c = true) (a : α) (l : List α)
    (hl : l.Pairwise (fun x y => le x y = true)) :
    (insertSorted le a l).Pairwise (fun x y => le x y = true) := by
  induction l with
  | nil => exact List.pairwise_singleton _ _
  | cons b l ih =>
    have hb := List.pairwise_cons.mp hl
    unfold insertSorted
    split
    · next hab =>
      refine List.pairwise_cons.mpr ⟨?_, hl⟩
      intro x hx
      rcases List.mem_cons.mp hx with rfl | hx
      · exact hab
      · exact htrans a b x hab (hb.1 x hx)
    · next hab =>
      refine List.pairwise_cons.mpr ⟨?_, ih hb.2⟩
      intro x hx
      rcases List.mem_cons.mp ((insertSorted_perm le a l).mem_iff.mp hx) with rfl | hx
      · rcases htot b x with h | h
        · exact h
        · exact absurd h hab
      · exact hb.1 x hx

theorem arraySort_pairwise {α : Type} (le : α → α → Bool)
    (htot : ∀ a b, le a b = true ∨ le b a = true)
    (htrans : ∀ a b c, le a b = true → le b c = true → le a c = true) (l : List α) :
    (arraySort le l).Pairwise (fun x y => le x y = true) := by
  induction l with
  | nil => exact List.Pairwise.nil
  | cons a l ih =>
    unfold arraySort
    exact insertSorted_pairwise le htot htrans a _ ih

theorem insertSorted_filter {α : Type} (le : α → α → Bool) (p : α → Bool)
    (hp : ∀ a b, p a = true → p b = true → le a b = true) (a : α) (l : List α) :
    (insertSorted le a l).filter p = (a :: l).filter p := by
  induction l with
  | nil => rfl
  | cons b l ih =>
    unfold insertSorted
    split
    · rfl
    · next hab =>
      cases hpa : p a
      · simp only [List.filter_cons, hpa, Bool.false_eq_true, if_false] at ih ⊢
        rw [ih]
      · have hpb : p b = false := by
          cases hpb : p b
          · rfl
          · exact absurd (hp a b hpa hpb) hab
        simp only [List.filter_cons, hpa, hpb, Bool.false_eq_true, if_false, if_true] at ih ⊢
        exact ih

theorem arraySort_filter {α : Type} (le : α → α → Bool) (p : α → Bool)
    (hp : ∀ a b, p a = true → p b = true → le a b = true) (l : List α) :
    (arraySort le l).filter p = l.filter p := by
  induction l with
  | nil => rfl
  | cons a l ih =>
    unfold arraySort
    rw [insertSorted_filter le p hp, List.filter_cons, ih, List.filter_cons]

theorem arraySort_head {α : Type} (le : α → α → Bool)
    (htot : ∀ a b, le a b = true ∨ le b a = true)
    (htrans : ∀ a b c, le a b = true → le b c = true → le a c = true) (l : List α)
    (hl : l ≠ []) :
    ∃ l₁ e l₂, l = l₁ ++ e :: l₂ ∧ (arraySort le l).head? = some e
      ∧ (∀ x ∈ l₁, le x e = false) ∧ (∀ x ∈ l₂, le e x = true) := by
  induction l with
  | nil => exact absurd rfl hl
  | cons a t ih =>
    by_cases ht : t = []
    · subst ht
      exact ⟨[], a, [], rfl, rfl, by simp, by simp⟩
    · obtain ⟨l₁, e, l₂, hdec, hhead, h₁, h₂⟩ := ih ht
      unfold arraySort
      cases hs : arraySort le t with
      | nil => rw [hs] at hhead; cases hhead
      | cons e2 rest =>
        rw [hs] at hhead
        simp only [List.head?_cons, Option.some.injEq] at hhead
        subst hhead
        unfold insertSorted
        by_cases hae : le a e2 = true
        · rw [if_pos hae]
          refine ⟨[], a, t, rfl, rfl, by simp, ?_⟩
          intro x hx
          rw [hdec] at hx
          rcases List.mem_append.mp hx with hx | hx
          · rcases htot x e2 with h | h
            · rw [h₁ x hx] at h; cases h
            · exact htrans a e2 x hae h
          · rcases List.mem_cons.mp hx with rfl | hx
            · exact hae
            · exact htrans a e2 x hae (h₂ x hx)
        · rw [if_neg hae]
          refine ⟨a :: l₁, e2, l₂, by rw [hdec]; rfl, rfl, ?_, h₂⟩
          intro x hx
          rcases List.mem_cons.mp hx with rfl | hx
          · simpa using hae
          · exact h₁ x hx

/-! ### Filtering -/

theorem applyFilters_ok_fixed (h : Host) (c : Criteria) :
    ∀ (data r : List Expense), applyFilters h c data = .ok r → applyFilters h c r = .ok r := by
  intro data
  induction data with
  | nil =>
    intro r hr
    simp only [applyFilters, Except.ok.injEq] at hr
    subst hr
    rfl
  | cons x xs ih =>
    intro r hr
    unfold applyFilters at hr
    cases hx : matchesFilters h c x with
    | error e => rw [hx] at hr; cases hr
    | ok keep =>
      rw [hx] at hr
      cases hxs : applyFilters h c xs with
      | error e => rw [hxs] at hr; cases hr
      | ok rest =>
        rw [hxs] at hr
        have hrest := ih rest hxs
        cases keep with
        | false =>
          simp only [Bool.false_eq_true, if_false, Except.ok.injEq] at hr
          subst hr
          exact hrest
        | true =>
          simp only [if_true, Except.ok.injEq] at hr
          subst hr
          unfold applyFilters
          rw [hx, hrest]
          rfl

/-- C2: `applyFilters` is idempotent for fixed criteria. Filtering the result of a
filter again gives the same list (same records, same order); when the first call
throws, so does the composition. -/
theorem applyFilters_idempotent (h : Host) (c : Criteria) (data : List Expense) :
    (applyFilters h c data).bind (applyFilters h c) = applyFilters h c data := by
  cases hd : applyFilters h c data with
  | error e => rfl
  | ok r => exact applyFilters_ok_fixed h c data r hd

/-! ### Insights on short lists -/

/-- C10: for fewer than three records `renderInsights` writes exactly the fixed notice,
whatever the records hold. -/
theorem renderInsights_short (h : Host) (items : List Expense) (hlen : items.length < 3) :
    renderInsights h items = .textContent "Add a few expenses to unlock insights." := by
  unfold renderInsights
  rw [if_pos hlen]

theorem renderInsights_short_witness :
    [mkExpense "1" 100 "Stressed" "2024-01-01", mkExpense "2" 10 "Calm" ""].length < 3
      ∧ renderInsights utcHost [mkExpense "1" 100 "Stressed" "2024-01-01", mkExpense "2" 10 "Calm" ""]
        = .textContent "Add a few expenses to unlock insights." :=
  ⟨by decide, renderInsights_short utcHost _ (by decide)⟩

/-! ### Delete -/

/-- C7: deleting an id that no record of the collection has leaves the collection as it
was: the same records in the same order. -/
theorem deleteHandler_absent (s : Store Expense) (id : String)
    (habs : ∀ x ∈ getData s, x.id ≠ id) :
    getData (deleteHandler id s) = getData s := by
  unfold deleteHandler
  show List.filter _ (getData s) = getData s
  rw [List.filter_eq_self]
  intro x hx
  simpa using habs x hx

theorem deleteHandler_absent_witness :
    (∀ x ∈ getData (some stressedExample), x.id ≠ "9")
      ∧ getData (deleteHandler "9" (some stressedExample)) = getData (some stressedExample) :=
  ⟨by decide, deleteHandler_absent (some stressedExample) "9" (by decide)⟩

/-! ### Import -/

theorem importHandler_error (jsonParse : String → Except String Json)
    (render : List Json → Except String Unit) (text msg : String) (store : Store Json)
    (hp : jsonParse text = .error msg) :
    (importHandler jsonParse render (some text) store)
      = ⟨store, some ("Import failed: " ++ msg), true⟩ := by
  simp only [importHandler, hp]

theorem importHandler_not_array (jsonParse : String → Except String Json)
    (render : List Json → Except String Unit) (text : String) (v : Json) (store : Store Json)
    (hp : jsonParse text = .ok v) (hv : ∀ xs, v ≠ .arr xs) :
    (importHandler jsonParse render (some text) store)
      = ⟨store, some ("Import failed: " ++ "Invalid JSON format"), true⟩ := by
  cases v with
  | arr xs => exact absurd rfl (hv xs)
  | null => simp only [importHandler, hp]
  | bool b => simp only [importHandler, hp]
  | num q => simp only [importHandler, hp]
  | str s => simp only [importHandler, hp]
  | obj kvs => simp only [importHandler, hp]

theorem importHandler_array_store (jsonParse : String → Except String Json)
    (render : List Json → Except String Unit) (text : String) (xs : List Json)
    (store : Store Json) (hp : jsonParse text = .ok (.arr xs)) :
    (importHandler jsonParse render (some text) store).store = setData xs := by
  simp only [importHandler, hp]
  cases render xs <;> rfl

/-- C6: when the payload does not parse, or parses to a value that is not an array,
the handler of the file input leaves the stored collection as it was and alerts a
failure; the stored collection changes only when the parsed value is an array, to that
array. -/
theorem importHandler_rejects (jsonParse : String → Except String Json)
    (render : List Json → Except String Unit) (text : String) (store : Store Json) :
    ((∀ xs, jsonParse text ≠ .ok (.arr xs)) →
        (importHandler jsonParse render (some text) store).store = store
          ∧ ∃ msg, (importHandler jsonParse render (some text) store).alert
              = some ("Import failed: " ++ msg))
      ∧ ((importHandler jsonParse render (some text) store).store ≠ store →
          ∃ xs, jsonParse text = .ok (.arr xs)
            ∧ (importHandler jsonParse render (some text) store).store = setData xs) := by
  cases hp : jsonParse text with
  | error msg =>
    rw [importHandler_error jsonParse render text msg store hp]
    exact ⟨fun _ => ⟨rfl, msg, rfl⟩, fun hne => absurd rfl hne⟩
  | ok v =>
    by_cases hv : ∃ xs, v = .arr xs
    · obtain ⟨xs, rfl⟩ := hv
      exact ⟨fun hno => absurd rfl (hno xs),
        fun _ => ⟨xs, rfl, importHandler_array_store jsonParse render text xs store hp⟩⟩
    · have hv2 : ∀ xs, v ≠ .arr xs := fun xs hxs => hv ⟨xs, hxs⟩
      rw [importHandler_not_array jsonParse render text v store hp hv2]
      exact ⟨fun _ => ⟨rfl, _, rfl⟩, fun hne => absurd rfl hne⟩

theorem importHandler_rejects_witness :
    (importHandler (fun _ => .ok (.obj [("a", .num 1)])) (fun _ => .ok ())
        (some "\x7b\"a\":1\x7d") (some [Json.str "kept"])).store = some [Json.str "kept"]
      ∧ ∃ msg, (importHandler (fun _ => .ok (.obj [("a", .num 1)])) (fun _ => .ok ())
          (some "\x7b\"a\":1\x7d") (some [Json.str "kept"])).alert
            = some ("Import failed: " ++ msg) :=
  (importHandler_rejects (fun _ => .ok (.obj [("a", .num 1)])) (fun _ => .ok ())
    "\x7b\"a\":1\x7d" (some [Json.str "kept"])).1 (fun xs hxs => by cases hxs)

/-! ### Table order -/

theorem byDateDesc_of_valid (h : Host) (a b : Expense)
    (ha : (h.dateParse a.date).isSome) (hb : (h.dateParse b.date).isSome) :
    byDateDesc h a b
      = decide ((h.dateParse b.date).getD 0 ≤ (h.dateParse a.date).getD 0) := by
  unfold byDateDesc
  cases hta : h.dateParse a.date with
  | none => rw [hta] at ha; cases ha
  | some ta =>
    cases htb : h.dateParse b.date with
    | none => rw [htb] at hb; cases hb
    | some tb =>
      simp only [Option.getD_some]
      congr 1
      exact propext sub_nonpos

theorem renderTable_eq_of_valid (h : Host) (items : List Expense)
    (hvalid : ∀ x ∈ items, (h.dateParse x.date).isSome) :
    renderTable h items
      = arraySort (fun a b => decide ((h.dateParse b.date).getD 0 ≤ (h.dateParse a.date).getD 0))
          items := by
  unfold renderTable
  apply arraySort_congr
  intro a ha b hb
  exact byDateDesc_of_valid h a b (hvalid a ha) (hvalid b hb)

/-- C9: for records with valid dates, the row order of `renderTable` is a permutation
of the input, sorted by date with the most recent first, and stable: the records
sharing a date keep their relative order. -/
theorem renderTable_sorted_stable (h : Host) (items : List Expense)
    (hvalid : ∀ x ∈ items, (h.dateParse x.date).isSome) :
    (renderTable h items).Perm items
      ∧ (renderTable h items).Pairwise (fun a b =>
          ∃ ta tb, h.dateParse a.date = some ta ∧ h.dateParse b.date = some tb ∧ tb ≤ ta)
      ∧ ∀ t, (renderTable h items).filter (fun x => decide (h.dateParse x.date = some t))
          = items.filter (fun x => decide (h.dateParse x.date = some t)) := by
  refine ⟨arraySort_perm _ _, ?_, ?_⟩
  · have hmem : ∀ x ∈ renderTable h items, (h.dateParse x.date).isSome :=
      fun x hx => hvalid x ((mem_arraySort _ _ x).mp hx)
    have hp := arraySort_pairwise
      (fun a b : Expense => decide ((h.dateParse b.date).getD 0 ≤ (h.dateParse a.date).getD 0))
      (fun a b => by
        rcases le_total ((h.dateParse b.date).getD 0) ((h.dateParse a.date).getD 0) with hab | hab
        · exact Or.inl (decide_eq_true hab)
        · exact Or.inr (decide_eq_true hab))
      (fun a b c hab hbc => decide_eq_true
        (le_trans (of_decide_eq_true hbc) (of_decide_eq_true hab)))
      items
    rw [← renderTable_eq_of_valid h items hvalid] at hp
    refine hp.imp_of_mem ?_
    intro a b ha hb hab
    have hab2 := of_decide_eq_true hab
    cases hta : h.dateParse a.date with
    | none => have := hmem a ha; rw [hta] at this; cases this
    | some ta =>
      cases htb : h.dateParse b.date with
      | none => have := hmem b hb; rw [htb] at this; cases this
      | some tb =>
        rw [hta, htb] at hab2
        exact ⟨ta, tb, rfl, rfl, hab2⟩
  · intro t
    rw [renderTable_eq_of_valid h items hvalid]
    apply arraySort_filter
    intro a b hpa hpb
    have ha := of_decide_eq_true hpa
    have hb := of_decide_eq_true hpb
    rw [ha, hb]
    exact decide_eq_true (le_refl _)

theorem renderTable_sorted_stable_witness :
    (∀ x ∈ tableExample, (utcHost.dateParse x.date).isSome)
      ∧ (renderTable utcHost tableExample).map (fun x => x.id) = ["b", "d", "a", "c"]
      ∧ (renderTable utcHost tableExample).Perm tableExample :=
  ⟨by decide, by decide, (renderTable_sorted_stable utcHost tableExample (by decide)).1⟩


/-! ### Sums and averages -/

theorem zero_eq_fin : (0 : JSNumber) = .fin 0 := by decide!

theorem sumAmounts_eq_floatSum (l : List Expense) :
    sumAmounts l = floatSum (l.map (fun x => x.amount)) := by
  unfold sumAmounts floatSum
  rw [List.foldl_map]

theorem avg_eq_meanAmount (l : List Expense) : avg l = meanAmount l := by
  unfold avg meanAmount
  cases l with
  | nil => decide!
  | cons x xs =>
    rw [if_neg (by simp), if_neg (by simp), sumAmounts_eq_floatSum]

theorem foldl_add_nonneg (l : List Expense) (hl : ∀ x ∈ l, 0 ≤ x.amount) (s : JSNumber)
    (hs : s.nonneg = true) :
    (l.foldl (fun s x => s.add (toDouble x.amount)) s).nonneg = true := by
  induction l generalizing s with
  | nil => exact hs
  | cons x xs ih =>
    rw [List.foldl_cons]
    apply ih (fun y hy => hl y (List.mem_cons_of_mem _ hy))
    exact jsAdd_nonneg s _ hs (toDouble_nonneg _ (hl x (List.mem_cons_self _ _)))

theorem avg_isNaN (l : List Expense) (hl : ∀ x ∈ l, 0 ≤ x.amount) : (avg l).isNaN = false := by
  apply isNaN_of_nonneg
  unfold avg
  apply divCount_nonneg
  unfold sumAmounts
  exact foldl_add_nonneg l hl 0 (by decide!)

theorem numOrZero_lt (v s : JSNumber) (hv : v.isNaN = false) :
    (numOrZero v).lt s = v.lt s := by
  unfold numOrZero
  cases v with
  | nan => cases hv
  | inf b => rfl
  | fin n =>
    by_cases hn : n = 0
    · subst hn
      simp only [JSNumber.truthy, ne_eq, not_true_eq_false, decide_False, Bool.false_eq_true,
        if_false, zero_eq_fin]
    · simp [JSNumber.truthy, hn]

theorem stressedHigher_mem_iff (h : Host) (items : List Expense) (hlen : 3 ≤ items.length) :
    (∃ a, Insight.stressedHigher a ∈ (renderInsights h items).parts)
      ↔ stressedTest items = true := by
  have hnot : ¬ items.length < 3 := by omega
  unfold renderInsights
  rw [if_neg hnot]
  simp only [InsightBox.parts]
  cases ht : stressedTest items
  · cases topMood items with
    | none => simp
    | some m => by_cases hm : m = "" <;> simp [hm]
  · cases topMood items with
    | none => simp
    | some m => by_cases hm : m = "" <;> simp [hm]

theorem stressedTest_iff (items : List Expense) (hnonneg : ∀ x ∈ items, 0 ≤ x.amount) :
    stressedTest items = true
      ↔ (meanAmount (withMood "Calm" items)).lt (meanAmount (withMood "Stressed" items)) = true
        ∧ (meanAmount (withMood "Happy" items)).lt (meanAmount (withMood "Stressed" items))
            = true := by
  have hsub : ∀ m, ∀ x ∈ withMood m items, 0 ≤ x.amount :=
    fun m x hx => hnonneg x (List.mem_of_mem_filter hx)
  unfold stressedTest
  rw [numOrZero_lt _ _ (avg_isNaN _ (hsub "Calm")), numOrZero_lt _ _ (avg_isNaN _ (hsub "Happy"))]
  simp only [avg_eq_meanAmount, Bool.and_eq_true]

/-- C3: for at least three records with non-negative amounts, the insights hold the
"Average purchase size is higher when Stressed" observation exactly when the average
amount of the Stressed records is strictly above both the Calm average and the Happy
average, the average of a mood without records being 0; the averages are those the
code computes, a left-to-right sum and a quotient in double arithmetic; the helper
`avg` of the code is that average; and for the three records of the spec example the
observation is present. -/
theorem stressed_observation (h : Host) (items : List Expense) (hlen : 3 ≤ items.length)
    (hnonneg : ∀ x ∈ items, 0 ≤ x.amount) :
    ((∃ a, Insight.stressedHigher a ∈ (renderInsights h items).parts)
        ↔ (meanAmount (withMood "Calm" items)).lt (meanAmount (withMood "Stressed" items))
            = true
          ∧ (meanAmount (withMood "Happy" items)).lt (meanAmount (withMood "Stressed" items))
            = true)
      ∧ (∀ l, avg l = meanAmount l) ∧ meanAmount [] = 0
      ∧ Insight.stressedHigher 100 ∈ (renderInsights h stressedExample).parts := by
  refine ⟨(stressedHigher_mem_iff h items hlen).trans (stressedTest_iff items hnonneg),
    avg_eq_meanAmount, rfl, ?_⟩
  have ht : stressedTest stressedExample = true := by decide!
  have ha : avg (withMood "Stressed" stressedExample) = 100 := by decide!
  have hnot : ¬ stressedExample.length < 3 := by decide
  unfold renderInsights
  rw [if_neg hnot]
  simp only [InsightBox.parts, ht, ha, if_true]
  simp

theorem stressed_observation_witness :
    3 ≤ closeAverages.length ∧ (∀ x ∈ closeAverages, 0 ≤ x.amount)
      ∧ meanAmount (withMood "Stressed" closeAverages) = toDouble 739.76
      ∧ meanAmount (withMood "Calm" closeAverages) = toDouble 739.7599999999999
      ∧ ∃ a, Insight.stressedHigher a ∈ (renderInsights utcHost closeAverages).parts :=
  ⟨by decide, by decide!, by decide!, by decide!,
    (stressed_observation utcHost closeAverages (by decide) (by decide!)).1.mpr
      ⟨by decide!, by decide!⟩⟩

/-! ### Keys in order of first occurrence -/

theorem mem_firstKeys (ks : List String) (j : String) : j ∈ firstKeys ks ↔ j ∈ ks := by
  induction ks with
  | nil => simp [firstKeys]
  | cons k ks ih =>
    simp only [firstKeys, List.mem_cons, List.mem_filter, ih, decide_eq_true_eq]
    constructor
    · rintro (h | ⟨h, _⟩)
      · exact Or.inl h
      · exact Or.inr h
    · rintro (h | h)
      · exact Or.inl h
      · by_cases hjk : j = k
        · exact Or.inl hjk
        · exact Or.inr ⟨h, hjk⟩

theorem nodup_firstKeys (ks : List String) : (firstKeys ks).Nodup := by
  induction ks with
  | nil => exact List.nodup_nil
  | cons k ks ih =>
    simp only [firstKeys]
    refine List.nodup_cons.mpr ⟨?_, ih.filter _⟩
    simp [List.mem_filter]

theorem firstKeys_append_singleton (ks : List String) (k : String) :
    firstKeys (ks ++ [k]) = if k ∈ ks then firstKeys ks else firstKeys ks ++ [k] := by
  induction ks with
  | nil => simp [firstKeys]
  | cons x ks ih =>
    rw [List.cons_append]
    simp only [firstKeys]
    rw [ih]
    by_cases hkx : k = x
    · subst hkx
      by_cases hk : k ∈ ks
      · simp [hk]
      · simp [hk, List.filter_append]
    · by_cases hk : k ∈ ks
      · simp [hk, hkx]
      · simp [hk, hkx, List.filter_append]

theorem keySum_append_singleton (j k : String) (a : ℚ) (kas : List (String × ℚ)) :
    keySum j (kas ++ [(k, a)])
      = if k = j then (keySum j kas).add (toDouble a) else keySum j kas := by
  unfold keySum floatSum
  by_cases hkj : k = j
  · simp [List.filter_append, hkj, List.foldl_append]
  · simp [List.filter_append, hkj]

theorem keySum_of_not_mem (k : String) (kas : List (String × ℚ))
    (hk : k ∉ kas.map Prod.fst) : keySum k kas = 0 := by
  unfold keySum
  have : kas.filter (fun p => decide (p.1 = k)) = [] := by
    rw [List.filter_eq_nil_iff]
    intro p hp hpk
    exact hk (List.mem_map.mpr ⟨p, hp, of_decide_eq_true hpk⟩)
  rw [this]
  rfl

theorem totalsOf_keys (kas : List (String × ℚ)) :
    (totalsOf kas).map Prod.fst = firstKeys (kas.map Prod.fst) := by
  unfold totalsOf
  rw [List.map_map]
  exact List.map_id _

theorem totalsOf_append_singleton (kas : List (String × ℚ)) (k : String) (a : ℚ) :
    totalsOf (kas ++ [(k, a)]) = bumpTotal k a (totalsOf kas) := by
  unfold bumpTotal
  rw [totalsOf_keys]
  unfold totalsOf
  rw [List.map_append, List.map_singleton, firstKeys_append_singleton]
  by_cases hk : k ∈ kas.map Prod.fst
  · rw [if_pos hk, if_pos ((mem_firstKeys _ _).mpr hk), List.map_map]
    apply List.map_congr_left
    intro j _
    simp only [Function.comp, keySum_append_singleton]
    by_cases hjk : j = k
    · subst hjk; simp
    · have hkj : ¬ k = j := fun h => hjk h.symm
      simp [hjk, hkj]
  · rw [if_neg hk, if_neg (fun h => hk ((mem_firstKeys _ _).mp h)), List.map_append,
      List.map_singleton]
    congr 1
    · apply List.map_congr_left
      intro j hj
      have hkj : ¬ k = j := fun h => hk (h ▸ (mem_firstKeys _ _).mp hj)
      simp [keySum_append_singleton, hkj]
    · simp [keySum_append_singleton, keySum_of_not_mem k kas hk]

theorem foldl_add_isNaN (l : List ℚ) (hl : ∀ a ∈ l, (toDouble a).isFinite = true)
    (s : JSNumber) (hs : s.isNaN = false) :
    (l.foldl (fun s a => s.add (toDouble a)) s).isNaN = false := by
  induction l generalizing s with
  | nil => exact hs
  | cons a l ih =>
    rw [List.foldl_cons]
    apply ih (fun b hb => hl b (List.mem_cons_of_mem _ hb))
    exact add_isNaN_of_finite s _ hs (hl a (List.mem_cons_self _ _))

theorem keySum_isNaN (k : String) (kas : List (String × ℚ))
    (hfin : ∀ p ∈ kas, (toDouble p.2).isFinite = true) : (keySum k kas).isNaN = false := by
  unfold keySum floatSum
  apply foldl_add_isNaN _ _ _ (by decide!)
  intro a ha
  obtain ⟨p, hp, rfl⟩ := List.mem_map.mp ha
  exact hfin p (List.mem_of_mem_filter hp)

theorem mem_totalsOf (kas : List (String × ℚ)) (j : String) (t : JSNumber) :
    (j, t) ∈ totalsOf kas ↔ j ∈ kas.map Prod.fst ∧ t = keySum j kas := by
  unfold totalsOf
  simp only [List.mem_map, Prod.mk.injEq, mem_firstKeys]
  constructor
  · rintro ⟨k, ⟨p, hp, hpk⟩, rfl, rfl⟩
    exact ⟨⟨p, hp, hpk⟩, rfl⟩
  · rintro ⟨⟨p, hp, hpk⟩, rfl⟩
    exact ⟨j, ⟨p, hp, hpk⟩, rfl, rfl⟩

theorem totalsOf_isNaN (kas : List (String × ℚ))
    (hfin : ∀ p ∈ kas, (toDouble p.2).isFinite = true) :
    ∀ p ∈ totalsOf kas, p.2.isNaN = false := by
  intro p hp
  obtain ⟨k, t⟩ := p
  rw [((mem_totalsOf kas k t).mp hp).2]
  exact keySum_isNaN k kas hfin

theorem totalsOf_ne_nil (kas : List (String × ℚ)) (hne : kas ≠ []) : totalsOf kas ≠ [] := by
  cases kas with
  | nil => exact absurd rfl hne
  | cons p kas => simp [totalsOf, firstKeys]

/-! ### The accumulator object -/

theorem lookupOwn_of_not_mem (k : String) (ps : List (String × JSNumber))
    (hk : k ∉ ps.map Prod.fst) : lookupOwn k (ps.map numEntry) = none := by
  induction ps with
  | nil => rfl
  | cons p ps ih =>
    simp only [List.map_cons, List.mem_cons, not_or] at hk
    simp only [List.map_cons, lookupOwn, numEntry]
    rw [if_neg (fun h => hk.1 h.symm)]
    exact ih hk.2

theorem lookupOwn_of_mem (k : String) (ps : List (String × JSNumber))
    (hk : k ∈ ps.map Prod.fst) :
    ∃ q, lookupOwn k (ps.map numEntry) = some (.num q) ∧ (k, q) ∈ ps := by
  induction ps with
  | nil => cases hk
  | cons p ps ih =>
    simp only [List.map_cons, lookupOwn, numEntry]
    by_cases hpk : p.1 = k
    · rw [if_pos hpk]
      exact ⟨p.2, rfl, hpk ▸ List.mem_cons_self _ _⟩
    · rw [if_neg hpk]
      simp only [List.map_cons, List.mem_cons] at hk
      rcases hk with hk | hk
      · exact absurd hk.symm hpk
      · obtain ⟨q, hq, hmem⟩ := ih hk
        exact ⟨q, hq, List.mem_cons_of_mem _ hmem⟩

theorem addTo_num (q : JSNumber) (a : ℚ) (hq : q.isNaN = false) :
    addTo (.num q) a = .num (q.add (toDouble a)) := by
  unfold addTo
  cases q with
  | nan => cases hq
  | inf b => rfl
  | fin n =>
    by_cases hn : n = 0
    · subst hn
      simp only [JSNumber.truthy, ne_eq, not_true_eq_false, decide_False, Bool.false_eq_true,
        if_false, zero_eq_fin]
    · simp [JSNumber.truthy, hn]

theorem replaceOwn_addTo (k : String) (a : ℚ) (ps : List (String × JSNumber))
    (hnd : (ps.map Prod.fst).Nodup) (q : JSNumber) (hqn : q.isNaN = false)
    (hq : lookupOwn k (ps.map numEntry) = some (.num q)) :
    replaceOwn k (addTo (.num q) a) (ps.map numEntry)
      = (ps.map (fun p => if p.1 = k then (p.1, p.2.add (toDouble a)) else p)).map numEntry := by
  induction ps with
  | nil => rfl
  | cons p ps ih =>
    simp only [List.map_cons, List.nodup_cons] at hnd
    simp only [List.map_cons, lookupOwn, numEntry] at hq
    simp only [List.map_cons, replaceOwn, numEntry]
    by_cases hpk : p.1 = k
    · rw [if_pos hpk] at hq
      simp only [Option.some.injEq, Val.num.injEq] at hq
      rw [if_pos hpk, if_pos hpk]
      have hrest : ps.map (fun p => if p.1 = k then (p.1, p.2.add (toDouble a)) else p)
          = ps := by
        conv_rhs => rw [← List.map_id ps]
        apply List.map_congr_left
        intro r hr
        have hrk : ¬ r.1 = k := fun h =>
          hnd.1 (List.mem_map.mpr ⟨r, hr, h.trans hpk.symm⟩)
        simp [hrk]
      rw [hrest, addTo_num q a hqn, ← hq, hpk]
    · rw [if_neg hpk] at hq
      rw [if_neg hpk, if_neg hpk]
      have := ih hnd.2 hq
      simp only [numEntry] at this
      rw [this]

theorem accumulate_props (o : JSObject) (ps : List (String × JSNumber)) (k : String) (a : ℚ)
    (ho : o.props = ps.map numEntry) (hnd : (ps.map Prod.fst).Nodup)
    (hnn : ∀ p ∈ ps, p.2.isNaN = false) (hk : k ∉ objectPrototypeKeys) :
    (accumulate o k a).props = (bumpTotal k a ps).map numEntry := by
  have hproto : k ≠ "__proto__" := fun h => hk (h ▸ by decide)
  unfold accumulate JSObject.set JSObject.get bumpTotal
  rw [ho]
  by_cases hmem : k ∈ ps.map Prod.fst
  · obtain ⟨q, hq, hqmem⟩ := lookupOwn_of_mem k ps hmem
    rw [if_pos hmem, hq]
    exact replaceOwn_addTo k a ps hnd q (hnn _ hqmem) hq
  · rw [if_neg hmem, lookupOwn_of_not_mem k ps hmem]
    simp only [if_neg hk, if_neg hproto, ho, List.map_append, List.map_singleton, addTo,
      numEntry]

theorem accumulateAll_props (kas : List (String × ℚ))
    (hsafe : ∀ p ∈ kas, p.1 ∉ objectPrototypeKeys)
    (hfin : ∀ p ∈ kas, (toDouble p.2).isFinite = true) :
    (accumulateAll JSObject.empty kas).props = (totalsOf kas).map numEntry := by
  induction kas using List.reverseRecOn with
  | nil => rfl
  | append_singleton kas p ih =>
    have hfin2 : ∀ r ∈ kas, (toDouble r.2).isFinite = true :=
      fun r hr => hfin r (List.mem_append_left _ hr)
    have hprev := ih (fun r hr => hsafe r (List.mem_append_left _ hr)) hfin2
    unfold accumulateAll at hprev ⊢
    rw [List.foldl_append, List.foldl_cons, List.foldl_nil]
    rw [totalsOf_append_singleton]
    apply accumulate_props _ _ _ _ hprev
    · rw [totalsOf_keys]; exact nodup_firstKeys _
    · exact totalsOf_isNaN kas hfin2
    · exact hsafe p (List.mem_append_right _ (List.mem_singleton_self p))

theorem groupSum_eq_accumulateAll (items : List Expense) (key : GroupKey) :
    groupSum items key
      = accumulateAll JSObject.empty (items.map (fun x => (groupKeyOf key x, x.amount))) := by
  unfold groupSum accumulateAll
  rw [List.foldl_map]

theorem byDow_eq_accumulateAll (h : Host) (items : List Expense) :
    byDow h items = accumulateAll JSObject.empty (dowPairs h items) := by
  unfold byDow accumulateAll dowPairs
  rw [List.foldl_map]

theorem groupSum_props (items : List Expense) (key : GroupKey)
    (hsafe : ∀ x ∈ items, groupKeyOf key x ∉ objectPrototypeKeys)
    (hfin : ∀ x ∈ items, (toDouble x.amount).isFinite = true) :
    (groupSum items key).props = (groupTotals items key).map numEntry := by
  rw [groupSum_eq_accumulateAll]
  apply accumulateAll_props
  · intro p hp
    obtain ⟨x, hx, rfl⟩ := List.mem_map.mp hp
    exact hsafe x hx
  · intro p hp
    obtain ⟨x, hx, rfl⟩ := List.mem_map.mp hp
    exact hfin x hx

/-! ### Property order and the greatest entry -/

theorem propertyOrder_perm {β : Type} (l : List (String × β)) : (propertyOrder l).Perm l := by
  unfold propertyOrder
  exact (List.Perm.append_right _ (arraySort_perm _ _)).trans
    (List.filter_append_perm (fun p => isIndexKey p.1) l)

theorem propertyOrder_numEntry (ps : List (String × JSNumber)) :
    propertyOrder (ps.map numEntry) = (propertyOrder ps).map numEntry := by
  unfold propertyOrder
  rw [List.map_append, List.filter_map, List.filter_map]
  congr 1
  exact arraySort_map numEntry _ _ (fun _ _ => rfl) _

theorem propertyOrder_of_no_index {β : Type} (l : List (String × β))
    (hno : ∀ p ∈ l, isIndexKey p.1 = false) : propertyOrder l = l := by
  unfold propertyOrder
  have h₁ : l.filter (fun p => isIndexKey p.1) = [] := by
    rw [List.filter_eq_nil_iff]
    intro p hp
    simp [hno p hp]
  have h₂ : l.filter (fun p => !isIndexKey p.1) = l := by
    rw [List.filter_eq_self]
    intro p hp
    simp [hno p hp]
  rw [h₁, h₂]
  rfl

theorem propertyOrder_of_all_index {β : Type} (l : List (String × β))
    (hall : ∀ p ∈ l, isIndexKey p.1 = true) :
    propertyOrder l = arraySort (fun a b => decide (keyIndex a.1 ≤ keyIndex b.1)) l := by
  unfold propertyOrder
  have h₁ : l.filter (fun p => isIndexKey p.1) = l := by
    rw [List.filter_eq_self]
    intro p hp
    simp [hall p hp]
  have h₂ : l.filter (fun p => !isIndexKey p.1) = [] := by
    rw [List.filter_eq_nil_iff]
    intro p hp
    simp [hall p hp]
  rw [h₁, h₂, List.append_nil]

theorem byValueDesc_numEntry (a b : String × JSNumber) (ha : a.2.isNaN = false)
    (hb : b.2.isNaN = false) :
    byValueDesc (numEntry a) (numEntry b) = decide (b.2.rank ≤ a.2.rank) := by
  unfold byValueDesc numEntry
  simp only [Val.toNumber]
  rw [keepsOrder_sub b.2 a.2 hb ha]
  by_cases hle : b.2.rank ≤ a.2.rank
  · rw [decide_eq_true hle]
    exact (le_iff_rank b.2 a.2 hb ha).mpr hle
  · rw [decide_eq_false hle]
    cases hv : b.2.le a.2
    · rfl
    · exact absurd ((le_iff_rank b.2 a.2 hb ha).mp hv) hle

theorem lt_le_false (x y : JSNumber) (hxy : x.lt y = true) : y.le x = false := by
  cases x with
  | nan => cases hxy
  | inf b =>
    cases y with
    | nan => cases b <;> cases hxy
    | inf c => cases b <;> cases c <;> first | rfl | cases hxy
    | fin n => cases b <;> first | rfl | cases hxy
  | fin m =>
    cases y with
    | nan => cases hxy
    | inf c => cases c <;> first | rfl | cases hxy
    | fin n =>
      simp only [JSNumber.lt, JSNumber.le, decide_eq_true_eq, decide_eq_false_iff_not] at hxy ⊢
      omega

theorem lt_le (x y : JSNumber) (hxy : x.lt y = true) : x.le y = true := by
  cases x with
  | nan => cases hxy
  | inf b =>
    cases y with
    | nan => cases b <;> cases hxy
    | inf c => cases b <;> cases c <;> first | rfl | cases hxy
    | fin n => cases b <;> first | rfl | cases hxy
  | fin m =>
    cases y with
    | nan => cases hxy
    | inf c => cases c <;> first | rfl | cases hxy
    | fin n =>
      simp only [JSNumber.lt, JSNumber.le, decide_eq_true_eq] at hxy ⊢
      omega

theorem lt_ne (x y : JSNumber) (hxy : x.lt y = true) : x ≠ y := by
  rintro rfl
  cases x with
  | nan => cases hxy
  | inf b => cases b <;> cases hxy
  | fin m => simp [JSNumber.lt] at hxy

theorem sortedEntries_head (ps : List (String × JSNumber)) (hne : ps ≠ [])
    (hnn : ∀ p ∈ ps, p.2.isNaN = false) :
    ∃ l₁ e l₂, ps = l₁ ++ e :: l₂
      ∧ (arraySort byValueDesc (ps.map numEntry)).head? = some (numEntry e)
      ∧ (∀ x ∈ l₁, x.2.lt e.2 = true) ∧ (∀ x ∈ l₂, x.2.le e.2 = true) := by
  have hcongr : arraySort byValueDesc (ps.map numEntry)
      = arraySort (fun a b : String × Val => decide (b.2.toNumber.rank ≤ a.2.toNumber.rank))
          (ps.map numEntry) := by
    apply arraySort_congr
    intro a ha b hb
    obtain ⟨p, hp, rfl⟩ := List.mem_map.mp ha
    obtain ⟨r, hr, rfl⟩ := List.mem_map.mp hb
    exact byValueDesc_numEntry p r (hnn p hp) (hnn r hr)
  rw [hcongr, arraySort_map numEntry (fun a b : String × JSNumber => decide (b.2.rank ≤ a.2.rank))
    (fun a b : String × Val => decide (b.2.toNumber.rank ≤ a.2.toNumber.rank))
    (fun _ _ => rfl)]
  obtain ⟨l₁, e, l₂, hdec, hhead, h₁, h₂⟩ :=
    arraySort_head (fun a b : String × JSNumber => decide (b.2.rank ≤ a.2.rank))
      (fun a b => by
        rcases le_total b.2.rank a.2.rank with hab | hab
        · exact Or.inl (decide_eq_true hab)
        · exact Or.inr (decide_eq_true hab))
      (fun a b c hab hbc => decide_eq_true
        (le_trans (of_decide_eq_true hbc) (of_decide_eq_true hab)))
      ps hne
  have he : e.2.isNaN = false := hnn e (hdec ▸ List.mem_append_right _ (List.mem_cons_self _ _))
  refine ⟨l₁, e, l₂, hdec, ?_, ?_, ?_⟩
  · rw [List.head?_map, hhead]
    rfl
  · intro x hx
    have hxn : x.2.isNaN = false := hnn x (hdec ▸ List.mem_append_left _ hx)
    have := h₁ x hx
    simp only [decide_eq_false_iff_not, not_le] at this
    exact (lt_iff_rank x.2 e.2 hxn he).mpr this
  · intro x hx
    have hxn : x.2.isNaN = false :=
      hnn x (hdec ▸ List.mem_append_right _ (List.mem_cons_of_mem _ hx))
    exact (le_iff_rank x.2 e.2 hxn he).mpr (of_decide_eq_true (h₂ x hx))

theorem firstMax_mem (l : List (String × JSNumber)) (m : String × JSNumber)
    (hm : firstMax l = some m) : m ∈ l := by
  induction l generalizing m with
  | nil => cases hm
  | cons e l ih =>
    unfold firstMax at hm
    cases hl : firstMax l with
    | none =>
      rw [hl] at hm
      simp only [Option.some.injEq] at hm
      exact hm ▸ List.mem_cons_self _ _
    | some m2 =>
      rw [hl] at hm
      by_cases hle : m2.2.le e.2 = true
      · simp only [if_pos hle, Option.some.injEq] at hm
        exact hm ▸ List.mem_cons_self _ _
      · simp only [if_neg hle, Option.some.injEq] at hm
        exact hm ▸ List.mem_cons_of_mem _ (ih m2 hl)

theorem firstMax_of_split (l₁ l₂ : List (String × JSNumber)) (e : String × JSNumber)
    (h₁ : ∀ x ∈ l₁, x.2.lt e.2 = true) (h₂ : ∀ x ∈ l₂, x.2.le e.2 = true) :
    firstMax (l₁ ++ e :: l₂) = some e := by
  induction l₁ with
  | nil =>
    simp only [List.nil_append, firstMax]
    cases hl : firstMax l₂ with
    | none => rfl
    | some m => simp only [if_pos (h₂ m (firstMax_mem l₂ m hl))]
  | cons a l₁ ih =>
    have ih2 := ih (fun x hx => h₁ x (List.mem_cons_of_mem _ hx))
    rw [List.cons_append]
    unfold firstMax
    rw [ih2]
    have hfalse := lt_le_false a.2 e.2 (h₁ a (List.mem_cons_self _ _))
    simp only [hfalse, Bool.false_eq_true, if_false]

/-! ### Top mood -/

theorem groupKeyOf_ne_empty (key : GroupKey) (x : Expense) : groupKeyOf key x ≠ "" := by
  unfold groupKeyOf strOr
  cases x.field key with
  | none => decide
  | some s =>
    by_cases hs : s = ""
    · simp only [if_pos hs]; decide
    · simp only [if_neg hs]; exact hs

theorem groupSum_entries (items : List Expense) (key : GroupKey)
    (hsafe : ∀ x ∈ items, groupKeyOf key x ∉ objectPrototypeKeys)
    (hfin : ∀ x ∈ items, (toDouble x.amount).isFinite = true) :
    (groupSum items key).entries = (propertyOrder (groupTotals items key)).map numEntry := by
  unfold JSObject.entries
  rw [groupSum_props items key hsafe hfin, propertyOrder_numEntry]

theorem groupTotals_isNaN (items : List Expense) (key : GroupKey)
    (hfin : ∀ x ∈ items, (toDouble x.amount).isFinite = true) :
    ∀ p ∈ groupTotals items key, p.2.isNaN = false := by
  apply totalsOf_isNaN
  intro p hp
  obtain ⟨x, hx, rfl⟩ := List.mem_map.mp hp
  exact hfin x hx

theorem topEntry_split (items : List Expense)
    (hsafe : ∀ x ∈ items, groupKeyOf .mood x ∉ objectPrototypeKeys)
    (hfin : ∀ x ∈ items, (toDouble x.amount).isFinite = true) (hne : items ≠ []) :
    ∃ l₁ e l₂, propertyOrder (groupTotals items .mood) = l₁ ++ e :: l₂
      ∧ (sortedMoodEntries items).head? = some (numEntry e)
      ∧ (∀ x ∈ l₁, x.2.lt e.2 = true) ∧ (∀ x ∈ l₂, x.2.le e.2 = true) := by
  unfold sortedMoodEntries
  rw [groupSum_entries items .mood hsafe hfin]
  apply sortedEntries_head
  · intro hnil
    have hperm := propertyOrder_perm (groupTotals items .mood)
    rw [hnil] at hperm
    have h0 : groupTotals items .mood = [] := List.Perm.eq_nil hperm.symm
    exact totalsOf_ne_nil _ (by simpa using hne) h0
  · intro p hp
    exact groupTotals_isNaN items .mood hfin p ((propertyOrder_perm _).mem_iff.mp hp)

/-- C4: for records whose amounts are finite numbers and none of whose mood labels is a
member name inherited from `Object.prototype`, the entries of `groupSum(items, "mood")`
are the per-mood totals (each the left-to-right sum of its amounts in double
arithmetic) listed in property order: array-index labels in ascending numeric order,
then the other labels in order of first occurrence (so for labels that are not array
indices, plain first-occurrence order). For a non-empty list the top mood of
`renderStats`, and of `renderInsights` from three records on, is the first entry of
that listing among those with the greatest total: every entry before it has a strictly
smaller total, every entry after it a total at most as large. For the empty list no
top mood is reported. -/
theorem topMood_first_greatest (h : Host) (items : List Expense)
    (hsafe : ∀ x ∈ items, groupKeyOf .mood x ∉ objectPrototypeKeys)
    (hfin : ∀ x ∈ items, (toDouble x.amount).isFinite = true) :
    (groupSum items .mood).entries = (propertyOrder (groupTotals items .mood)).map numEntry
      ∧ ((∀ x ∈ items, isIndexKey (groupKeyOf .mood x) = false) →
          propertyOrder (groupTotals items .mood) = groupTotals items .mood)
      ∧ (items = [] → topMood items = none ∧ renderStats items = .ok ⟨0, 0, none⟩
          ∧ (renderInsights h items).parts = [])
      ∧ (items ≠ [] → ∃ l₁ k v l₂,
          propertyOrder (groupTotals items .mood) = l₁ ++ (k, v) :: l₂
            ∧ (∀ e ∈ l₁, e.2.lt v = true) ∧ (∀ e ∈ l₂, e.2.le v = true)
            ∧ firstMax (propertyOrder (groupTotals items .mood)) = some (k, v)
            ∧ topMood items = some k
            ∧ renderStats items = .ok ⟨sumAmounts items, items.length, some (k, v)⟩
            ∧ (3 ≤ items.length → Insight.topMood k ∈ (renderInsights h items).parts)) := by
  refine ⟨groupSum_entries items .mood hsafe hfin, ?_, ?_, ?_⟩
  · intro hno
    apply propertyOrder_of_no_index
    intro p hp
    obtain ⟨k, t⟩ := p
    have hk := ((mem_totalsOf _ k t).mp hp).1
    rw [List.map_map] at hk
    obtain ⟨x, hx, rfl⟩ := List.mem_map.mp hk
    exact hno x hx
  · rintro rfl
    exact ⟨rfl, rfl, rfl⟩
  · intro hne
    obtain ⟨l₁, ⟨k, v⟩, l₂, hsplit, hhead, h₁, h₂⟩ := topEntry_split items hsafe hfin hne
    have hk : k ≠ "" := by
      have hmem : (k, v) ∈ groupTotals items .mood :=
        (propertyOrder_perm _).mem_iff.mp (hsplit ▸ List.mem_append_right _ (List.mem_cons_self _ _))
      have hk := ((mem_totalsOf _ k v).mp hmem).1
      rw [List.map_map] at hk
      obtain ⟨x, _, rfl⟩ := List.mem_map.mp hk
      exact groupKeyOf_ne_empty .mood x
    have htop : topMood items = some k := by
      unfold topMood
      rw [hhead]
      rfl
    refine ⟨l₁, k, v, l₂, hsplit, h₁, h₂, ?_, htop, ?_, ?_⟩
    · rw [hsplit]
      exact firstMax_of_split l₁ l₂ (k, v) h₁ h₂
    · unfold renderStats
      rw [hhead]
      rfl
    · intro hlen
      have hnot : ¬ items.length < 3 := by omega
      unfold renderInsights
      rw [if_neg hnot, htop]
      simp only [InsightBox.parts, if_neg hk]
      split <;> simp

theorem topMood_first_greatest_witness :
    (∀ x ∈ closeTotals, groupKeyOf .mood x ∉ objectPrototypeKeys)
      ∧ (∀ x ∈ closeTotals, (toDouble x.amount).isFinite = true)
      ∧ closeTotals ≠ [] ∧ 3 ≤ closeTotals.length
      ∧ groupTotals closeTotals .mood
          = [("Calm", toDouble 1421.09), ("Happy", toDouble 1421.0900000000001)]
      ∧ topMood closeTotals = some "Happy"
      ∧ ∃ l₁ k v l₂,
          propertyOrder (groupTotals closeTotals .mood) = l₁ ++ (k, v) :: l₂
            ∧ (∀ e ∈ l₁, e.2.lt v = true) ∧ (∀ e ∈ l₂, e.2.le v = true)
            ∧ firstMax (propertyOrder (groupTotals closeTotals .mood)) = some (k, v)
            ∧ topMood closeTotals = some k
            ∧ renderStats closeTotals
                = .ok ⟨sumAmounts closeTotals, closeTotals.length, some (k, v)⟩
            ∧ (3 ≤ closeTotals.length →
                Insight.topMood k ∈ (renderInsights utcHost closeTotals).parts) :=
  ⟨by decide, by decide!, by decide, by decide, by decide!, by decide!,
    (topMood_first_greatest utcHost closeTotals (by decide) (by decide!)).2.2.2 (by decide)⟩

/-- C4, as stated, fails: for two records with the moods "2" and "1" and equal
amounts, the first key in order of first occurrence with the greatest total is "2",
while the code reports "1", the key `Object.entries` lists first; for these two
records `renderInsights` reports no top mood at all; for a single record whose
mood is "__proto__" `renderStats` reports no top mood; and when the Calm amounts are
`Infinity` and `-Infinity` the Calm total is `NaN`, which is not at least the Happy
total of 5, and Calm is reported. -/
theorem topMood_not_first_occurrence :
    (firstMax (groupTotals numericMoods .mood)).map Prod.fst = some "2"
      ∧ topMood numericMoods = some "1"
      ∧ renderStats numericMoods = .ok ⟨10, 2, some ("1", 5)⟩
      ∧ (renderInsights utcHost numericMoods).parts = []
      ∧ renderStats protoMood = .ok ⟨5, 1, none⟩
      ∧ (groupSum overflowAmounts .mood).entries
          = [("Calm", .num .nan), ("Happy", .num 5)]
      ∧ topMood overflowAmounts = some "Calm"
      ∧ JSNumber.le 5 .nan = false := by
  decide!

/-! ### Peak spend day -/

theorem getDay_lt (h : Host) (s : String) (w : Nat) (hw : getDay h s = some w) : w < 7 := by
  unfold getDay at hw
  cases ht : h.dateParse s with
  | none => rw [ht] at hw; cases hw
  | some t =>
    rw [ht] at hw
    simp only [Option.map_some', Option.some.injEq] at hw
    have h1 : 0 ≤ ((t + h.localTZA t) / msPerDay + 4) % 7 := Int.emod_nonneg _ (by norm_num)
    have h2 : ((t + h.localTZA t) / msPerDay + 4) % 7 < 7 := Int.emod_lt_of_pos _ (by norm_num)
    omega

theorem getDay_of_valid (h : Host) (s : String) (hs : (h.dateParse s).isSome) :
    ∃ w, getDay h s = some w := by
  unfold getDay
  cases ht : h.dateParse s with
  | none => rw [ht] at hs; cases hs
  | some t => exact ⟨_, rfl⟩

theorem dowKey_facts : ∀ w, w < 7 →
    isIndexKey (dowKey (some w)) = true ∧ keyIndex (dowKey (some w)) = w
      ∧ dowKey (some w) ∉ objectPrototypeKeys := by
  decide

theorem dowKey_injective (v w : Nat) (hv : v < 7) (hw : w < 7)
    (hvw : dowKey (some v) = dowKey (some w)) : v = w := by
  rw [← (dowKey_facts v hv).2.1, ← (dowKey_facts w hw).2.1, hvw]

theorem keySum_dowPairs (h : Host) (items : List Expense)
    (hvalid : ∀ x ∈ items, (h.dateParse x.date).isSome) (w : Nat) (hw : w < 7) :
    keySum (dowKey (some w)) (dowPairs h items) = daySum h items w := by
  unfold keySum dowPairs daySum
  rw [List.filter_map, List.map_map]
  have hfilter : items.filter ((fun p : String × ℚ => decide (p.1 = dowKey (some w)))
        ∘ fun x => (dowKey (getDay h x.date), x.amount))
      = items.filter (fun x => decide (getDay h x.date = some w)) := by
    apply List.filter_congr
    intro x hx
    obtain ⟨v, hv⟩ := getDay_of_valid h x.date (hvalid x hx)
    simp only [Function.comp, hv, Option.some.injEq]
    by_cases hvw : v = w
    · simp [hvw]
    · have : ¬ dowKey (some v) = dowKey (some w) :=
        fun hk => hvw (dowKey_injective v w (getDay_lt h _ v hv) hw hk)
      simp [hvw, this]
  rw [hfilter]
  rfl

theorem mem_dowPairs_keys (h : Host) (items : List Expense)
    (hvalid : ∀ x ∈ items, (h.dateParse x.date).isSome) (k : String)
    (hk : k ∈ (dowPairs h items).map Prod.fst) :
    ∃ w, w < 7 ∧ k = dowKey (some w) ∧ ∃ x ∈ items, getDay h x.date = some w := by
  unfold dowPairs at hk
  rw [List.map_map] at hk
  obtain ⟨x, hx, rfl⟩ := List.mem_map.mp hk
  obtain ⟨w, hw⟩ := getDay_of_valid h x.date (hvalid x hx)
  exact ⟨w, getDay_lt h _ w hw, by simp [hw], x, hx, hw⟩

theorem dowPairs_finite (h : Host) (items : List Expense)
    (hfin : ∀ x ∈ items, (toDouble x.amount).isFinite = true) :
    ∀ p ∈ dowPairs h items, (toDouble p.2).isFinite = true := by
  intro p hp
  obtain ⟨x, hx, rfl⟩ := List.mem_map.mp hp
  exact hfin x hx

theorem byDow_entries (h : Host) (items : List Expense)
    (hvalid : ∀ x ∈ items, (h.dateParse x.date).isSome)
    (hfin : ∀ x ∈ items, (toDouble x.amount).isFinite = true) :
    (byDow h items).entries
      = (arraySort (fun a b : String × JSNumber => decide (keyIndex a.1 ≤ keyIndex b.1))
          (totalsOf (dowPairs h items))).map numEntry := by
  have hkeys := mem_dowPairs_keys h items hvalid
  have hprops : (byDow h items).props = (totalsOf (dowPairs h items)).map numEntry := by
    rw [byDow_eq_accumulateAll]
    apply accumulateAll_props _ _ (dowPairs_finite h items hfin)
    intro p hp
    obtain ⟨w, hw, hpw, _⟩ := hkeys p.1 (List.mem_map_of_mem _ hp)
    rw [hpw]
    exact (dowKey_facts w hw).2.2
  unfold JSObject.entries
  rw [hprops, propertyOrder_numEntry, propertyOrder_of_all_index]
  intro p hp
  obtain ⟨k, t⟩ := p
  obtain ⟨w, hw, hpw, _⟩ := hkeys k ((mem_totalsOf _ k t).mp hp).1
  rw [hpw]
  exact (dowKey_facts w hw).1

theorem peakDow_split (h : Host) (items : List Expense) (hne : items ≠ [])
    (hvalid : ∀ x ∈ items, (h.dateParse x.date).isSome)
    (hfin : ∀ x ∈ items, (toDouble x.amount).isFinite = true) :
    ∃ l₁ e l₂,
      arraySort (fun a b : String × JSNumber => decide (keyIndex a.1 ≤ keyIndex b.1))
          (totalsOf (dowPairs h items)) = l₁ ++ e :: l₂
        ∧ maxDow h items = some e.1
        ∧ (∀ x ∈ l₁, x.2.lt e.2 = true)
        ∧ (∀ x ∈ l₂, x.2.le e.2 = true ∧ keyIndex e.1 ≤ keyIndex x.1) := by
  have hnil : arraySort (fun a b : String × JSNumber => decide (keyIndex a.1 ≤ keyIndex b.1))
      (totalsOf (dowPairs h items)) ≠ [] := by
    intro h0
    have hperm := arraySort_perm
      (fun a b : String × JSNumber => decide (keyIndex a.1 ≤ keyIndex b.1))
      (totalsOf (dowPairs h items))
    rw [h0] at hperm
    exact totalsOf_ne_nil _ (by simpa [dowPairs] using hne) (List.Perm.eq_nil hperm.symm)
  have hnn : ∀ p ∈ arraySort
      (fun a b : String × JSNumber => decide (keyIndex a.1 ≤ keyIndex b.1))
      (totalsOf (dowPairs h items)), p.2.isNaN = false := by
    intro p hp
    exact totalsOf_isNaN _ (dowPairs_finite h items hfin) p ((mem_arraySort _ _ p).mp hp)
  obtain ⟨l₁, e, l₂, hsplit, hhead, h₁, h₂⟩ := sortedEntries_head _ hnil hnn
  have hpw := arraySort_pairwise
    (fun a b : String × JSNumber => decide (keyIndex a.1 ≤ keyIndex b.1))
    (fun a b => by
      rcases le_total (keyIndex a.1) (keyIndex b.1) with hab | hab
      · exact Or.inl (decide_eq_true hab)
      · exact Or.inr (decide_eq_true hab))
    (fun a b c hab hbc => decide_eq_true
      (le_trans (of_decide_eq_true hab) (of_decide_eq_true hbc)))
    (totalsOf (dowPairs h items))
  rw [hsplit] at hpw
  have hafter := (List.pairwise_cons.mp (List.pairwise_append.mp hpw).2.1).1
  refine ⟨l₁, e, l₂, hsplit, ?_, h₁, fun x hx => ⟨h₂ x hx, of_decide_eq_true (hafter x hx)⟩⟩
  unfold maxDow
  rw [byDow_entries h items hvalid hfin, hhead]
  rfl

theorem peakDay_mem_parts (h : Host) (items : List Expense) (hlen : 3 ≤ items.length) :
    Insight.peakDay (dowNames.getD (peakDowIndex h items) "undefined")
      ∈ (renderInsights h items).parts := by
  have hnot : ¬ items.length < 3 := by omega
  unfold renderInsights
  rw [if_neg hnot]
  simp [InsightBox.parts]

theorem le_self_of_not_nan (v : JSNumber) (hv : v.isNaN = false) : v.le v = true := by
  cases v with
  | nan => cases hv
  | inf b => cases b <;> rfl
  | fin n => simp [JSNumber.le]

/-- C8: for at least three records whose dates are all valid and whose amounts are
finite numbers, the peak spend day of `renderInsights` is a weekday (0 for Sunday to 6
for Saturday) on which some record falls, whose summed amount (the left-to-right sum in
double arithmetic) is at least that of every weekday on which a record falls, and
which has the lowest index among the weekdays with a record that reach that sum. -/
theorem peakDay_greatest_lowest (h : Host) (items : List Expense)
    (hlen : 3 ≤ items.length) (hvalid : ∀ x ∈ items, (h.dateParse x.date).isSome)
    (hfin : ∀ x ∈ items, (toDouble x.amount).isFinite = true) :
    peakDowIndex h items < 7
      ∧ (∃ x ∈ items, getDay h x.date = some (peakDowIndex h items))
      ∧ (∀ w, (∃ x ∈ items, getDay h x.date = some w) →
          (daySum h items w).le (daySum h items (peakDowIndex h items)) = true
            ∧ (daySum h items w = daySum h items (peakDowIndex h items) →
                peakDowIndex h items ≤ w))
      ∧ Insight.peakDay (dowNames.getD (peakDowIndex h items) "undefined")
          ∈ (renderInsights h items).parts := by
  have hne : items ≠ [] := by
    intro h0
    rw [h0] at hlen
    simp at hlen
  obtain ⟨l₁, ⟨k, v⟩, l₂, hsplit, hmax, h₁, h₂⟩ := peakDow_split h items hne hvalid hfin
  have hmemSort : ∀ p, p ∈ totalsOf (dowPairs h items) ↔ p ∈ l₁ ++ (k, v) :: l₂ := by
    intro p
    rw [← hsplit]
    exact (mem_arraySort _ _ p).symm
  have hkv : (k, v) ∈ totalsOf (dowPairs h items) :=
    (hmemSort _).mpr (List.mem_append_right _ (List.mem_cons_self _ _))
  obtain ⟨hkmem, hvsum⟩ := (mem_totalsOf _ k v).mp hkv
  obtain ⟨d, hd, hkd, x, hx, hxd⟩ := mem_dowPairs_keys h items hvalid k hkmem
  have hpeak : peakDowIndex h items = d := by
    unfold peakDowIndex dowIndex
    rw [hmax]
    show keyIndex k = d
    rw [hkd]
    exact (dowKey_facts d hd).2.1
  have hvd : v = daySum h items d := by
    rw [hvsum, hkd]
    exact keySum_dowPairs h items hvalid d hd
  have hvn : v.isNaN = false := totalsOf_isNaN _ (dowPairs_finite h items hfin) _ hkv
  rw [hpeak]
  refine ⟨hd, ⟨x, hx, hxd⟩, ?_, hpeak ▸ peakDay_mem_parts h items hlen⟩
  intro w ⟨y, hy, hyw⟩
  have hw : w < 7 := getDay_lt h _ w hyw
  have hwmem : (dowKey (some w), daySum h items w) ∈ totalsOf (dowPairs h items) := by
    rw [mem_totalsOf]
    refine ⟨?_, (keySum_dowPairs h items hvalid w hw).symm⟩
    unfold dowPairs
    rw [List.map_map]
    exact List.mem_map.mpr ⟨y, hy, by simp [hyw]⟩
  rcases List.mem_append.mp ((hmemSort _).mp hwmem) with hin | hin
  · have hlt := h₁ _ hin
    simp only at hlt
    rw [hvd] at hlt
    exact ⟨lt_le _ _ hlt, fun heq => absurd heq (lt_ne _ _ hlt)⟩
  · rcases List.mem_cons.mp hin with heq | hin
    · have hkw : dowKey (some w) = k := (Prod.mk.inj heq).1
      have hwd : w = d := dowKey_injective w d hw hd (hkw.trans hkd)
      subst hwd
      exact ⟨le_self_of_not_nan _ (hvd ▸ hvn), fun _ => le_refl _⟩
    · obtain ⟨hle, hidx⟩ := h₂ _ hin
      simp only at hle hidx
      rw [hvd] at hle
      rw [hkd, (dowKey_facts d hd).2.1, (dowKey_facts w hw).2.1] at hidx
      exact ⟨hle, fun _ => hidx⟩

theorem peakDay_greatest_lowest_witness :
    3 ≤ closeTotals.length ∧ (∀ x ∈ closeTotals, (utcHost.dateParse x.date).isSome)
      ∧ (∀ x ∈ closeTotals, (toDouble x.amount).isFinite = true)
      ∧ daySum utcHost closeTotals 1 = toDouble 1421.09
      ∧ daySum utcHost closeTotals 2 = toDouble 1421.0900000000001
      ∧ peakDowIndex utcHost closeTotals = 2
      ∧ (∃ x ∈ closeTotals, getDay utcHost x.date = some (peakDowIndex utcHost closeTotals)) :=
  ⟨by decide, by decide, by decide!, by decide!, by decide!, by decide!,
    (peakDay_greatest_lowest utcHost closeTotals (by decide) (by decide) (by decide!)).2.1⟩

theorem peakDay_tie_example :
    peakDowIndex utcHost tiedDays = 1
      ∧ daySum utcHost tiedDays 3 = daySum utcHost tiedDays 1 := by
  decide!

/-- C8, as stated, fails in three ways. Three records of amount 0 on a Monday: every
weekday has the sum 0, Sunday has the lowest index, and the code reports Monday. Two
records of amount 100 without a valid date and one of amount 5 on a Monday: Monday has
the greatest sum among the weekdays and the code reports Sunday. Two Monday records
whose amounts are `Infinity` and `-Infinity` and a Tuesday record of amount 5: the
Monday sum is `NaN`, which is not at least 5, and the code reports Monday. -/
theorem peakDay_not_overall_greatest :
    (3 ≤ zeroMondays.length
        ∧ daySum utcHost zeroMondays 0 = daySum utcHost zeroMondays 1
        ∧ (∀ w, w < 7 →
            (daySum utcHost zeroMondays w).le (daySum utcHost zeroMondays 0) = true)
        ∧ peakDowIndex utcHost zeroMondays = 1
        ∧ Insight.peakDay "Mon" ∈ (renderInsights utcHost zeroMondays).parts)
      ∧ (3 ≤ undatedExample.length
        ∧ (daySum utcHost undatedExample 0).lt (daySum utcHost undatedExample 1) = true
        ∧ peakDowIndex utcHost undatedExample = 0
        ∧ Insight.peakDay "Sun" ∈ (renderInsights utcHost undatedExample).parts)
      ∧ (3 ≤ overflowAmounts.length
        ∧ (byDow utcHost overflowAmounts).entries = [("1", .num .nan), ("2", .num 5)]
        ∧ (daySum utcHost overflowAmounts 2).le (daySum utcHost overflowAmounts 1) = false
        ∧ peakDowIndex utcHost overflowAmounts = 1
        ∧ Insight.peakDay "Mon" ∈ (renderInsights utcHost overflowAmounts).parts) := by
  decide!

/-! ### Group sums and the grand total -/

/-- C1 on the code: a record filed under the category "__proto__" is dropped by
`groupSum`, whose result is then the empty object with values summing to 0, while the
grand total of `renderStats` is 5; and under the category "constructor" the value stored
by `groupSum` is a string, not a number. -/
theorem groupSum_loses_proto_category :
    (groupSum protoCategory .category).entries = []
      ∧ valuesTotal (groupSum protoCategory .category) = some 0
      ∧ sumAmounts protoCategory = 5
      ∧ (groupSum constructorCategory .category).entries = [("constructor", Val.text)]
      ∧ valuesTotal (groupSum constructorCategory .category) = none
      ∧ sumAmounts constructorCategory = 5 := by
  decide!

theorem groupSum_mixed_categories :
    (groupSum mixedCategories .category).entries
        = [("Food", .num 7), ("Uncategorized", .num 8)]
      ∧ valuesTotal (groupSum mixedCategories .category) = some 15
      ∧ sumAmounts mixedCategories = 15 := by
  decide!

/-! ### CSV export -/

/-- C5 on the code: the double quotes of a description are exported as backslash
escapes, so the row is not well-formed CSV and has no description to read back; a
backslash is exported doubled and is read back doubled; a description with a comma
and none of the characters JSON escapes is read back unchanged. -/
theorem csv_description_not_restored :
    csvRow utcHost quotedDescription
        = "\"1\",\"2024-01-01\",\"12\",\"Books\",\"Book, \\\"Dune\\\"\",\"Cash\",\"Happy\""
      ∧ reparsedDescription (csvRow utcHost quotedDescription) = none
      ∧ quotedDescription.description = some "Book, \"Dune\""
      ∧ reparsedDescription (csvRow utcHost backslashDescription) = some "C:\\\\docs, print"
      ∧ backslashDescription.description = some "C:\\docs, print"
      ∧ reparsedDescription (csvRow utcHost commaDescription) = commaDescription.description := by
  decide!

end ExpenseTracker
